import Mathlib

/-!
# Verification of the pdf-comp bitmap comparison core

Shallow embedding, in Lean 4, of the Go sources of `mdmcconnell/pdfcomp`
(`imgutils.go`, `pdfcomp/pdfcomp.go`), together with theorems settling a
list of claims about the program.

Conventions of the embedding:

* Go byte slices become `List Nat` with values in `[0,256)`; `[][]byte`
  becomes `List (List Nat)` (`PixelMatrix`).
* Machine integers are modelled as `Nat`/`Int`; wrap-around (`byte(x)`) is
  an explicit `% 256` / `emod 256`; Go's truncating integer division on
  `int` is `Int.tdiv`.
* Fallible Go code returns `GoRes α`: `.ok`, `.err msg` for a returned
  `error`, and `.panic msg` for a Go runtime panic (index out of range,
  integer divide by zero, makeslice with negative length, ...).  Error and
  panic message strings are fixed descriptive constants; no theorem
  depends on their exact wording.
* `crypto/sha256` is embedded as an executable SHA-256 over `List Nat`
  (FIPS 180-4), with all word arithmetic done in `Nat` modulo `2^32`.
-/

namespace Pdfcomp

/-- Result of a Go computation: success, a returned `error` value, or a
runtime panic. -/
inductive GoRes (α : Type) where
  | ok (a : α)
  | err (msg : String)
  | panic (msg : String)
deriving DecidableEq, Repr

namespace GoRes

/-- Sequence two Go computations, propagating errors and panics. -/
def bind {α β : Type} (x : GoRes α) (f : α → GoRes β) : GoRes β :=
  match x with
  | .ok a => f a
  | .err m => .err m
  | .panic m => .panic m

end GoRes

/-- Fold a Go-fallible step over a list (the loop bodies of the source,
with `return err` propagation). -/
def foldGo {σ α : Type} (f : σ → α → GoRes σ) : σ → List α → GoRes σ
  | s, [] => .ok s
  | s, a :: as =>
    match f s a with
    | .ok s' => foldGo f s' as
    | .err m => .err m
    | .panic m => .panic m

/-- Map a Go-fallible function over a list, collecting the results. -/
def mapGo {α β : Type} (f : α → GoRes β) : List α → GoRes (List β)
  | [] => .ok []
  | a :: as =>
    match f a with
    | .ok b =>
      match mapGo f as with
      | .ok bs => .ok (b :: bs)
      | .err m => .err m
      | .panic m => .panic m
    | .err m => .err m
    | .panic m => .panic m

/-! ## SHA-256 (FIPS 180-4), executable over `List Nat`

Embeds Go's `crypto/sha256` as used by `hash` in `imgutils.go`.  A 32-bit
word is a `Nat < 2^32`; all operations reduce modulo `2^32`. -/

/-- Reduce to a 32-bit word. -/
def w32 (x : Nat) : Nat := x % 4294967296

/-- Right-rotation of a 32-bit word by `n` (0 ≤ n ≤ 32), arithmetically:
the low `n` bits move to the top. -/
def rotr32 (n x : Nat) : Nat := x / 2 ^ n + x % 2 ^ n * 2 ^ (32 - n)

/-- SHA-256 `Ch(e,f,g)`. -/
def shaCh (e f g : Nat) : Nat := (e &&& f) ^^^ ((e ^^^ 4294967295) &&& g)

/-- SHA-256 `Maj(a,b,c)`. -/
def shaMaj (a b c : Nat) : Nat := (a &&& b) ^^^ (a &&& c) ^^^ (b &&& c)

/-- SHA-256 `Σ₀`. -/
def shaS0 (x : Nat) : Nat := rotr32 2 x ^^^ rotr32 13 x ^^^ rotr32 22 x

/-- SHA-256 `Σ₁`. -/
def shaS1 (x : Nat) : Nat := rotr32 6 x ^^^ rotr32 11 x ^^^ rotr32 25 x

/-- SHA-256 `σ₀`. -/
def shas0 (x : Nat) : Nat := rotr32 7 x ^^^ rotr32 18 x ^^^ x / 8

/-- SHA-256 `σ₁`. -/
def shas1 (x : Nat) : Nat := rotr32 17 x ^^^ rotr32 19 x ^^^ x / 1024

/-- The 64 SHA-256 round constants. -/
def shaK : List Nat :=
  [1116352408, 1899447441, 3049323471, 3921009573, 961987163,
   1508970993, 2453635748, 2870763221, 3624381080, 310598401,
   607225278, 1426881987, 1925078388, 2162078206, 2614888103,
   3248222580, 3835390401, 4022224774, 264347078, 604807628,
   770255983, 1249150122, 1555081692, 1996064986, 2554220882,
   2821834349, 2952996808, 3210313671, 3336571891, 3584528711,
   113926993, 338241895, 666307205, 773529912, 1294757372,
   1396182291, 1695183700, 1986661051, 2177026350, 2456956037,
   2730485921, 2820302411, 3259730800, 3345764771, 3516065817,
   3600352804, 4094571909, 275423344, 430227734, 506948616,
   659060556, 883997877, 958139571, 1322822218, 1537002063,
   1747873779, 1955562222, 2024104815, 2227730452, 2361852424,
   2428436474, 2756734187, 3204031479, 3329325298]

/-- The eight SHA-256 initial hash values. -/
def shaH0 : List Nat :=
  [1779033703, 3144134277, 1013904242, 2773480762,
   1359893119, 2600822924, 528734635, 1541459225]

/-- One step of the message-schedule extension, on the reversed schedule
(head = most recent word). -/
def shaSchedStep (rw : List Nat) : Nat :=
  w32 (rw.getD 15 0 + shas0 (rw.getD 14 0) + rw.getD 6 0 + shas1 (rw.getD 1 0))

/-- Extend the (reversed) message schedule by `n` words, then un-reverse. -/
def shaSched : Nat → List Nat → List Nat
  | 0, rw => rw.reverse
  | n + 1, rw => shaSched n (shaSchedStep rw :: rw)

/-- Group a 64-byte block into sixteen big-endian 32-bit words. -/
def shaWords : List Nat → List Nat
  | b0 :: b1 :: b2 :: b3 :: rest =>
    (b0 * 16777216 + b1 * 65536 + b2 * 256 + b3) :: shaWords rest
  | _ => []

/-- The SHA-256 working state, eight 32-bit words. -/
structure ShaState where
  a : Nat
  b : Nat
  c : Nat
  d : Nat
  e : Nat
  f : Nat
  g : Nat
  h : Nat
deriving Repr

/-- One SHA-256 compression round, consuming one `(Kₜ, Wₜ)` pair. -/
def shaRound (st : ShaState) (kw : Nat × Nat) : ShaState :=
  let t1 := w32 (st.h + shaS1 st.e + shaCh st.e st.f st.g + kw.1 + kw.2)
  let t2 := w32 (shaS0 st.a + shaMaj st.a st.b st.c)
  ⟨w32 (t1 + t2), st.a, st.b, st.c, w32 (st.d + t1), st.e, st.f, st.g⟩

/-- Compress one 64-byte block into the running 8-word state. -/
def shaCompress (st : List Nat) (block : List Nat) : List Nat :=
  let ws := shaSched 48 (shaWords block).reverse
  let fin := (shaK.zip ws).foldl shaRound
    ⟨st.getD 0 0, st.getD 1 0, st.getD 2 0, st.getD 3 0,
     st.getD 4 0, st.getD 5 0, st.getD 6 0, st.getD 7 0⟩
  [w32 (st.getD 0 0 + fin.a), w32 (st.getD 1 0 + fin.b),
   w32 (st.getD 2 0 + fin.c), w32 (st.getD 3 0 + fin.d),
   w32 (st.getD 4 0 + fin.e), w32 (st.getD 5 0 + fin.f),
   w32 (st.getD 6 0 + fin.g), w32 (st.getD 7 0 + fin.h)]

/-- Process `n` 64-byte blocks of a padded message. -/
def shaBlocks : Nat → List Nat → List Nat → List Nat
  | 0, _, st => st
  | n + 1, bs, st => shaBlocks n (bs.drop 64) (shaCompress st (bs.take 64))

/-- A natural number as 8 big-endian bytes. -/
def be64 (n : Nat) : List Nat :=
  [n / 2 ^ 56 % 256, n / 2 ^ 48 % 256, n / 2 ^ 40 % 256, n / 2 ^ 32 % 256,
   n / 2 ^ 24 % 256, n / 2 ^ 16 % 256, n / 2 ^ 8 % 256, n % 256]

/-- A 32-bit word as 4 big-endian bytes. -/
def be32 (n : Nat) : List Nat :=
  [n / 2 ^ 24 % 256, n / 2 ^ 16 % 256, n / 2 ^ 8 % 256, n % 256]

/-- SHA-256 of a byte sequence: pad to a multiple of 64 bytes, compress
block-wise, serialise the final state big-endian. -/
def sha256 (msg : List Nat) : List Nat :=
  let L := msg.length
  let zeros := (64 - (L + 9) % 64) % 64
  let padded := msg ++ [128] ++ List.replicate zeros 0 ++ be64 (8 * L)
  let st := shaBlocks (padded.length / 64) padded shaH0
  (st.map be32).flatten

/-! ## imgutils.go: matrices, hashing, diffing -/

/-- A pixel matrix: rows of interleaved R,G,B byte samples (`[][]byte`). -/
abbrev PixelMatrix := List (List Nat)

/-- `hash` (imgutils.go): SHA-256 digest of a 2-D byte matrix.  The Go code
streams each row into one `sha256.New()` state, which digests exactly the
row concatenation; `sha256`'s `Write` never returns an error, so the
source's error paths are dead and the embedding is total. -/
def hash (mat : PixelMatrix) : List Nat := sha256 mat.flatten

/-- The 3-byte slice `row[x*3:(x+1)*3]` of a row. -/
def pixSlice (row : List Nat) (x : Nat) : List Nat := (row.drop (3 * x)).take 3

/-- One row of the difference mask: entry `x` is true iff the 3-byte pixel
slices differ (`!bytes.Equal(...)` in the source). -/
def diffRow (r1 r2 : List Nat) : List Bool :=
  (List.range (r1.length / 3)).map fun x => decide (pixSlice r1 x ≠ pixSlice r2 x)

/-- The row loop of `diffMatrix`, carrying the row index for the error
message. -/
def diffMatrixGo : PixelMatrix → PixelMatrix → Nat → GoRes (List (List Bool))
  | [], [], _ => .ok []
  | r1 :: t1, r2 :: t2, y =>
    if r1.length ≠ r2.length then
      .err ("diffMatrix: inputs do not have the same width at row " ++ toString y)
    else
      match diffMatrixGo t1 t2 (y + 1) with
      | .ok d => .ok (diffRow r1 r2 :: d)
      | .err m => .err m
      | .panic m => .panic m
  | _, _, _ => .panic "index out of range"

/-- `diffMatrix` (imgutils.go): per-pixel difference mask of two RGB
matrices; unequal heights, or unequal row lengths at some row, are
returned errors.  (The unequal-length list case of `diffMatrixGo` is
unreachable after the height check.) -/
def diffMatrix (mat1 mat2 : PixelMatrix) : GoRes (List (List Bool)) :=
  if mat1.length ≠ mat2.length then
    .err "diffMatrix: inputs do not have the same height"
  else diffMatrixGo mat1 mat2 0

/-- `equalImgMatrix` (imgutils.go): hash-compare two matrices; on hash
inequality with `diff` set, compute the difference mask.  The source's
debug `Fprintf`s index `mat1[0]` before calling `diffMatrix` and `diff[0]`
before checking `diffMatrix`'s error, so an empty `mat1`, or any
`diffMatrix` error (whose accompanying matrix is `nil`), panics. -/
def equalImgMatrix (mat1 mat2 : PixelMatrix) (diff : Bool) :
    GoRes (Bool × Option (List (List Bool))) :=
  if hash mat1 = hash mat2 then .ok (true, none)
  else if diff then
    match mat1.head? with
    | none => .panic "index out of range"
    | some _ =>
      match diffMatrix mat1 mat2 with
      | .err _ => .panic "index out of range"
      | .panic m => .panic m
      | .ok d =>
        match d.head? with
        | none => .panic "index out of range"
        | some _ => .ok (false, some d)
  else .ok (false, none)

/-! ## imgutils.go: the PPM parser -/

/-- Is a byte one of the separators `readNextValue` recognises
(`' '`, `'\n'`, `'\t'`)? -/
def isSep (c : Nat) : Bool := c = 32 || c = 10 || c = 9

/-- Is a byte ASCII whitespace, as `strings.TrimSpace` trims it?  (The
inputs at issue are ASCII; multi-byte Unicode spaces are out of scope.) -/
def isSpaceB (c : Nat) : Bool :=
  c = 32 || c = 9 || c = 10 || c = 11 || c = 12 || c = 13

/-- `bufio.Reader.ReadString('\n')`: the bytes up to and including the
first newline, and the rest.  EOF before a newline is the `io.EOF` error
(the callers in `ppmToMatrix` all fail in that case, data or no data). -/
def readLine (bs : List Nat) : GoRes (List Nat × List Nat) :=
  match bs.findIdx? (· = 10) with
  | some i => .ok (bs.take (i + 1), bs.drop (i + 1))
  | none => .err "EOF"

/-- `strings.TrimSpace` on a byte string (ASCII). -/
def trimSpace (bs : List Nat) : List Nat :=
  ((bs.dropWhile isSpaceB).reverse.dropWhile isSpaceB).reverse

/-- `strings.Split(s, " ")`: split on every single space byte. -/
def splitSpace (bs : List Nat) : List (List Nat) :=
  List.splitOn 32 bs

/-- The digits of a decimal token, as a value, if all bytes are digits. -/
def digitsVal : List Nat → Option Nat
  | [] => some 0
  | c :: cs =>
    if 48 ≤ c ∧ c ≤ 57 then
      (digitsVal cs).map fun v => (c - 48) * 10 ^ cs.length + v
    else none

/-- `strconv.Atoi`: optional sign, then decimal digits; empty or malformed
input and 64-bit overflow are errors. -/
def goAtoi (bs : List Nat) : GoRes Int :=
  match bs with
  | [] => .err "strconv.Atoi: invalid syntax"
  | c :: cs =>
    let (sign, digits) : Int × List Nat :=
      if c = 43 then (1, cs) else if c = 45 then (-1, cs) else (1, bs)
    match digits, digitsVal digits with
    | [], _ => .err "strconv.Atoi: invalid syntax"
    | _, none => .err "strconv.Atoi: invalid syntax"
    | _, some v =>
      let n : Int := sign * v
      if n < -9223372036854775808 ∨ 9223372036854775807 < n then
        .err "strconv.Atoi: value out of range"
      else .ok n

/-- Go's `byte(x)` conversion of an `int`: the low 8 bits. -/
def goByte (x : Int) : Nat := (x % 256).toNat

/-- The sample-scaling expression `byte(color * 255 / maxColor)` of
`ppmToMatrix` line 151: Go `int` division truncates toward zero
(`Int.tdiv`) and panics when the divisor is zero. -/
def scaleSample (c maxColor : Int) : GoRes Nat :=
  if maxColor = 0 then .panic "runtime error: integer divide by zero"
  else .ok (goByte (Int.tdiv (c * 255) maxColor))

/-- `readNextValue` (imgutils.go): skip leading separators, accumulate
non-separator bytes; a separator ends the token (and is consumed), EOF
ends the last token, EOF with no token is the `io.EOF` error. -/
def readNextValue (bs : List Nat) : GoRes (List Nat × List Nat) :=
  let bs' := bs.dropWhile isSep
  let tok := bs'.takeWhile (fun c => ¬ isSep c)
  if tok.isEmpty then .err "EOF"
  else .ok (tok, (bs'.drop tok.length).drop 1)

/-- Read one raw sample from the stream: binary variant = one byte
(`binary.Read`), text variant = next token through `strconv.Atoi`. -/
def readSample (isBinary : Bool) (bs : List Nat) : GoRes (Int × List Nat) :=
  if isBinary then
    match bs with
    | [] => .err "EOF"
    | b :: rest => .ok ((b : Int), rest)
  else
    match readNextValue bs with
    | .ok (tok, rest) =>
      match goAtoi tok with
      | .ok v => .ok (v, rest)
      | .err m => .err m
      | .panic m => .panic m
    | .err m => .err m
    | .panic m => .panic m

/-- Read and scale `n` samples (the flattened `x`/`i` loops of one row). -/
def readRow (isBinary : Bool) (maxColor : Int) :
    Nat → List Nat → GoRes (List Nat × List Nat)
  | 0, bs => .ok ([], bs)
  | n + 1, bs =>
    match readSample isBinary bs with
    | .ok (c, bs') =>
      match scaleSample c maxColor with
      | .ok b =>
        match readRow isBinary maxColor n bs' with
        | .ok (row, bs'') => .ok (b :: row, bs'')
        | .err m => .err m
        | .panic m => .panic m
      | .err m => .err m
      | .panic m => .panic m
    | .err m => .err m
    | .panic m => .panic m

/-- Read `h` rows of `rowLen` scaled samples each (the `y` loop). -/
def readRows (isBinary : Bool) (maxColor : Int) (rowLen : Nat) :
    Nat → List Nat → GoRes PixelMatrix
  | 0, _ => .ok []
  | h + 1, bs =>
    match readRow isBinary maxColor rowLen bs with
    | .ok (row, bs') =>
      match readRows isBinary maxColor rowLen h bs' with
      | .ok rest => .ok (row :: rest)
      | .err m => .err m
      | .panic m => .panic m
    | .err m => .err m
    | .panic m => .panic m

/-- `ppmToMatrix` (imgutils.go): parse a PPM byte stream (`P3` text or
`P6` binary) into a pixel matrix.  Header: format line, `width height`
line, max-colour line.  A negative height, or a negative width with at
least one row, panics in Go's `make` with a negative length; the source
checks neither.  Trailing bytes after the pixel data are ignored. -/
def ppmToMatrix (bs : List Nat) : GoRes PixelMatrix :=
  match readLine bs with
  | .err m => .err m
  | .panic m => .panic m
  | .ok (line1, r1) =>
    let format := trimSpace line1
    let isBinaryR : GoRes Bool :=
      if format = [80, 51] then .ok false
      else if format = [80, 54] then .ok true
      else .err "unsupported PPM format"
    match isBinaryR with
    | .err m => .err m
    | .panic m => .panic m
    | .ok isBinary =>
      match readLine r1 with
      | .err m => .err m
      | .panic m => .panic m
      | .ok (line2, r2) =>
        let parts := splitSpace (trimSpace line2)
        if parts.length ≠ 2 then .err "invalid size format"
        else
          match goAtoi (parts.getD 0 []) with
          | .err m => .err m
          | .panic m => .panic m
          | .ok width =>
            match goAtoi (parts.getD 1 []) with
            | .err m => .err m
            | .panic m => .panic m
            | .ok height =>
              match readLine r2 with
              | .err m => .err m
              | .panic m => .panic m
              | .ok (line3, r3) =>
                match goAtoi (trimSpace line3) with
                | .err m => .err m
                | .panic m => .panic m
                | .ok maxColor =>
                  if height < 0 then .panic "makeslice: len out of range"
                  else if 0 < height ∧ width < 0 then
                    .panic "makeslice: len out of range"
                  else
                    readRows isBinary maxColor (3 * width.toNat) height.toNat r3

/-! ## imgutils.go: annotator (circle, highlightPixel, highlightStamp,
diffImage) and compositor (joinImages, rgbToPNG) -/

/-- Bounds-checked matrix read `m[y][x]` (Go panics out of range). -/
def mget (m : PixelMatrix) (y x : Nat) : GoRes Nat :=
  match m[y]? with
  | none => .panic "index out of range"
  | some row =>
    match row[x]? with
    | none => .panic "index out of range"
    | some v => .ok v

/-- Bounds-checked matrix write `m[y][x] = v` (Go panics out of range). -/
def mset (m : PixelMatrix) (y x v : Nat) : GoRes PixelMatrix :=
  match m[y]? with
  | none => .panic "index out of range"
  | some row =>
    if x < row.length then .ok (m.set y (row.set x v))
    else .panic "index out of range"

/-- `circle` (imgutils.go): a `(2r+1) x (2r+1)` disc stamp, byte 255 where
`dx*dx + dy*dy <= r*r` and 0 elsewhere. -/
def circle (radius : Nat) : PixelMatrix :=
  let size := 2 * radius + 1
  (List.range size).map fun (y : Nat) =>
    (List.range size).map fun (x : Nat) =>
      let dx : Int := (x : Int) - radius
      let dy : Int := (y : Int) - radius
      if dx * dx + dy * dy ≤ (radius : Int) * radius then 255 else 0

/-- `highlightPixel` (imgutils.go): blend a pixel with pure yellow at
factor 0.5.  The source computes in `float64`; for byte-range inputs every
intermediate (`v*0.5`, `+127.5`) is an exact dyadic rational and the final
`byte(...)` conversion truncates, so the arithmetic is exactly
`((v+255)/2, (v+255)/2, v/2)` in truncating natural division; the
source's `> 255` clamps are the `min _ 255`. -/
def highlightPixel (r g b : Nat) : Nat × Nat × Nat :=
  (min ((r + 255) / 2) 255, min ((g + 255) / 2) 255, min (b / 2) 255)

/-- Inner (`x`) loop body of `highlightStamp`: clip the column, skip zero
stamp bytes, otherwise write the blend of the *original* image's pixel
into the output at the same location. -/
def stampColStep (img stamp : PixelMatrix) (stampCols centerX my cols y : Nat)
    (nm : PixelMatrix) (x : Nat) : GoRes PixelMatrix :=
  let matrixX : Int := (centerX : Int) - (stampCols / 2 : Nat) * 3 + x * 3
  if matrixX < 0 ∨ (cols : Int) ≤ matrixX + 2 then .ok nm
  else
    let mx := matrixX.toNat
    (mget stamp y x).bind fun sv =>
      if sv = 0 then .ok nm
      else
        (mget img my mx).bind fun r =>
        (mget img my (mx + 1)).bind fun g =>
        (mget img my (mx + 2)).bind fun b =>
        (mset nm my mx (highlightPixel r g b).1).bind fun nm1 =>
        (mset nm1 my (mx + 1) (highlightPixel r g b).2.1).bind fun nm2 =>
        mset nm2 my (mx + 2) (highlightPixel r g b).2.2

/-- `highlightStamp` (imgutils.go): stamp one disc, reading pixel values
from `img` (the untouched original) and writing into `newImage`;
out-of-bounds stamp cells are skipped (`continue`), rows clipped against
`len(img)` and columns against `len(img[0])`. -/
def highlightStamp (img newImage stamp : PixelMatrix) (centerX centerY : Nat) :
    GoRes PixelMatrix :=
  match stamp.head?, img.head? with
  | none, _ => .panic "index out of range"
  | _, none => .panic "index out of range"
  | some srow, some irow =>
    let stampRows := stamp.length
    let stampCols := srow.length
    let rows := img.length
    let cols := irow.length
    foldGo
      (fun nm (y : Nat) =>
        let matrixY : Int := (centerY : Int) - (stampRows / 2 : Nat) + (y : Int)
        if matrixY < 0 ∨ (rows : Int) ≤ matrixY then .ok nm
        else
          foldGo (stampColStep img stamp stampCols centerX matrixY.toNat cols y)
            nm (List.range stampCols))
      newImage (List.range stampRows)

/-- `diffImage` (imgutils.go): start from a copy of `mat` (immutable in
Lean, so `mat` itself) and stamp a disc at every true mask entry, centred
at byte column `x*3` of row `y`. -/
def diffImage (mat : PixelMatrix) (diff : List (List Bool)) (radius : Nat) :
    GoRes PixelMatrix :=
  let stamp := circle radius
  foldGo
    (fun nm yrow =>
      foldGo
        (fun nm xb =>
          if xb.2 then highlightStamp mat nm stamp (xb.1 * 3) yrow.1 else .ok nm)
        nm yrow.2.enum)
    mat diff.enum

/-- Go's `copy(dst, src)`: overwrite the first `min |src| |dst|` elements
of `dst` with those of `src`. -/
def goCopy (dst src : List Nat) : List Nat :=
  let n := min src.length dst.length
  src.take n ++ dst.drop n

/-- `joinImages` (imgutils.go): rows of zeros of width
`len(img1[0]) + padding + len(img2[0])`, with `img1`'s row copied at the
start and `img2`'s row copied at offset `len(img1[i]) + padding + 1` —
the source's `+1` is embedded as written.  Empty inputs panic on the
`[0]` reads; a row of `img2` missing (shorter `img2`) panics; an
offset past the row end is a slice-bounds panic. -/
def joinImages (img1 img2 : PixelMatrix) (padding : Nat) : GoRes PixelMatrix :=
  match img1.head?, img2.head? with
  | none, _ => .panic "index out of range"
  | _, none => .panic "index out of range"
  | some r1, some r2 =>
    let height := img1.length
    let width := r1.length + padding + r2.length
    mapGo
      (fun i =>
        match img1[i]? with
        | none => .panic "index out of range"
        | some row1 =>
          let base := goCopy (List.replicate width 0) row1
          let k := row1.length + padding + 1
          if width < k then .panic "slice bounds out of range"
          else
            match img2[i]? with
            | none => .panic "index out of range"
            | some row2 => .ok (base.take k ++ goCopy (base.drop k) row2))
      (List.range height)

/-- `rgbToPNG` (imgutils.go): rasterise a matrix to a row-major grid of
`(R,G,B,255)` pixels, one per 3-byte group, width `len(matrix[0])/3`. -/
def rgbToPNG (matrix : PixelMatrix) :
    GoRes (List (List (Nat × Nat × Nat × Nat))) :=
  match matrix.head? with
  | none => .panic "index out of range"
  | some r0 =>
    let height := matrix.length
    let width := r0.length / 3
    mapGo
      (fun y =>
        mapGo
          (fun x =>
            (mget matrix y (x * 3)).bind fun r =>
            (mget matrix y (x * 3 + 1)).bind fun g =>
            (mget matrix y (x * 3 + 2)).bind fun b =>
            .ok (r, g, b, 255))
          (List.range width))
      (List.range height)

/-! ## pdfcomp/pdfcomp.go: the page orchestrator `EqualPDFs`

External collaborators (pdfcpu's `PageCount`, the `pdftoppm` renderer) are
an environment; the orchestrator's own logic — page loop, hash compare,
diff/annotate/composite pipeline, file outputs — is embedded from the
source.  `os.Create` and `png.Encode` (plain file writes) and `BuildPDF`
(external pdfcpu document assembly) are modelled as succeeding; the run
records the renderer invocations in order, the png files created, and the
`PageFile` list handed to `BuildPDF`. -/

/-- The external collaborators of `EqualPDFs`: `PageCount(file)` and
`PdfToPPM(file, page, resolution)` returning a PPM byte stream. -/
structure Env where
  pageCount : String → GoRes Nat
  render : String → Nat → Nat → GoRes (List Nat)

/-- Observable outcome of the page loop: final `same` (or failure), the
renderer invocations `(file, page)` in call order, the png files written,
and the accumulated `PageFile` entries. -/
structure LoopOut where
  result : GoRes Bool
  renders : List (String × Nat)
  written : List String
  pngFiles : List (Nat × String)
deriving DecidableEq, Repr

/-- Observable outcome of a whole `EqualPDFs` run. -/
structure RunOut where
  result : GoRes Bool
  renders : List (String × Nat)
  written : List String
  pngFiles : List (Nat × String)
  builtPdf : Bool
deriving DecidableEq, Repr

/-- The `for i := range pages1` loop of `EqualPDFs`: per page, render both
files, parse both streams, hash-compare (`equalImgMatrix` with
`images || pdf != nil`), fold the per-page result into the running `same`;
when `!same` and image/pdf output is requested, annotate both sides,
composite, write `<file1>-<page>-diff.png` and (when pdf output) record a
`PageFile`; when `!same` otherwise, break. -/
def comparePages (env : Env) (file1 file2 : String) (images pdfb : Bool)
    (resolution ratio : Nat) :
    List Nat → Bool → List (String × Nat) → List String → List (Nat × String) →
    LoopOut
  | [], same, tr, wr, pngs => ⟨.ok same, tr, wr, pngs⟩
  | i :: rest, same, tr, wr, pngs =>
    let page := i + 1
    let tr1 := tr ++ [(file1, page)]
    match env.render file1 page resolution with
    | .err m => ⟨.err m, tr1, wr, pngs⟩
    | .panic m => ⟨.panic m, tr1, wr, pngs⟩
    | .ok ppm1 =>
      let tr2 := tr1 ++ [(file2, page)]
      match env.render file2 page resolution with
      | .err m => ⟨.err m, tr2, wr, pngs⟩
      | .panic m => ⟨.panic m, tr2, wr, pngs⟩
      | .ok ppm2 =>
        match ppmToMatrix ppm1 with
        | .err m => ⟨.err m, tr2, wr, pngs⟩
        | .panic m => ⟨.panic m, tr2, wr, pngs⟩
        | .ok mat1 =>
          match ppmToMatrix ppm2 with
          | .err m => ⟨.err m, tr2, wr, pngs⟩
          | .panic m => ⟨.panic m, tr2, wr, pngs⟩
          | .ok mat2 =>
            match equalImgMatrix mat1 mat2 (images || pdfb) with
            | .err m => ⟨.err m, tr2, wr, pngs⟩
            | .panic m => ⟨.panic m, tr2, wr, pngs⟩
            | .ok (thisSame, diffOpt) =>
              let same' := same && thisSame
              if ¬ same' ∧ (images || pdfb) = true then
                let dm := diffOpt.getD []
                match diffImage mat1 dm (resolution / ratio) with
                | .err m => ⟨.err m, tr2, wr, pngs⟩
                | .panic m => ⟨.panic m, tr2, wr, pngs⟩
                | .ok img1 =>
                  match diffImage mat2 dm (resolution / ratio) with
                  | .err m => ⟨.err m, tr2, wr, pngs⟩
                  | .panic m => ⟨.panic m, tr2, wr, pngs⟩
                  | .ok img2 =>
                    match joinImages img1 img2 5 with
                    | .err m => ⟨.err m, tr2, wr, pngs⟩
                    | .panic m => ⟨.panic m, tr2, wr, pngs⟩
                    | .ok joined =>
                      let filename :=
                        file1 ++ "-" ++ toString page ++ "-diff.png"
                      let wr1 := wr ++ [filename]
                      match rgbToPNG joined with
                      | .err m => ⟨.err m, tr2, wr1, pngs⟩
                      | .panic m => ⟨.panic m, tr2, wr1, pngs⟩
                      | .ok _ =>
                        comparePages env file1 file2 images pdfb resolution
                          ratio rest same' tr2 wr1
                          (if pdfb then pngs ++ [(page, filename)] else pngs)
              else if ¬ same' then ⟨.ok false, tr2, wr, pngs⟩
              else
                comparePages env file1 file2 images pdfb resolution ratio
                  rest same' tr2 wr pngs

/-- `EqualPDFs` (pdfcomp.go): identical paths short-circuit to true; page
counts are fetched, and unequal counts with `images` unset return false at
once; otherwise the loop runs over `pages1` pages, and pdf output is
assembled (`BuildPDF`) when requested and a difference was found. -/
def EqualPDFs (env : Env) (file1 file2 : String) (images pdfb : Bool)
    (resolution ratio : Nat) : RunOut :=
  if file1 = file2 then ⟨.ok true, [], [], [], false⟩
  else
    match env.pageCount file1 with
    | .err m => ⟨.err ("error getting page count: " ++ m), [], [], [], false⟩
    | .panic m => ⟨.panic m, [], [], [], false⟩
    | .ok pages1 =>
      match env.pageCount file2 with
      | .err m => ⟨.err ("error getting page count: " ++ m), [], [], [], false⟩
      | .panic m => ⟨.panic m, [], [], [], false⟩
      | .ok pages2 =>
        if pages1 ≠ pages2 ∧ images = false then ⟨.ok false, [], [], [], false⟩
        else
          let lo := comparePages env file1 file2 images pdfb resolution ratio
            (List.range pages1) true [] [] []
          match lo.result with
          | .err m => ⟨.err m, lo.renders, lo.written, lo.pngFiles, false⟩
          | .panic m => ⟨.panic m, lo.renders, lo.written, lo.pngFiles, false⟩
          | .ok same =>
            if pdfb ∧ same = false then
              ⟨.ok false, lo.renders, lo.written, lo.pngFiles, true⟩
            else ⟨.ok same, lo.renders, lo.written, lo.pngFiles, false⟩

/-! ## Spec-side helpers for theorem statements -/

/-- Row `i` of a matrix (empty past the end). -/
def row (m : PixelMatrix) (i : Nat) : List Nat := m.getD i []

/-- Every row of `m` has length `L`. -/
def uniformRows (m : PixelMatrix) (L : Nat) : Prop := ∀ r ∈ m, r.length = L

/-- The R,G,B byte triple of pixel `p` of row `y` (zeros past the end). -/
def pix (m : PixelMatrix) (y p : Nat) : Nat × Nat × Nat :=
  ((row m y).getD (3 * p) 0, (row m y).getD (3 * p + 1) 0,
   (row m y).getD (3 * p + 2) 0)

/-- `highlightPixel` on a triple. -/
def hp3 (t : Nat × Nat × Nat) : Nat × Nat × Nat := highlightPixel t.1 t.2.1 t.2.2

/-! ## Theorems: hashing and `equalImgMatrix` (claims C10, C5) -/

/-- The digest ignores row boundaries: equal row concatenations give equal
digests. -/
theorem hash_eq_of_flatten_eq {m1 m2 : PixelMatrix}
    (h : m1.flatten = m2.flatten) : hash m1 = hash m2 := by
  unfold hash
  rw [h]

/-- C10: the digest is computed over the concatenation of all rows with no
encoding of row boundaries or dimensions, so any two matrices with equal
row-concatenated byte sequences — whatever their heights and row lengths —
have equal digests, and `equalImgMatrix` reports them equal (with no mask
and no dimension comparison). -/
theorem C10_hash_concat (m1 m2 : PixelMatrix) (d : Bool)
    (h : m1.flatten = m2.flatten) :
    hash m1 = hash m2 ∧ equalImgMatrix m1 m2 d = .ok (true, none) := by
  have hh := hash_eq_of_flatten_eq h
  refine ⟨hh, ?_⟩
  unfold equalImgMatrix
  rw [if_pos hh]

/-- The 2-row-by-9-byte matrix of bytes 1..18. -/
def c10a : PixelMatrix := [[1,2,3,4,5,6,7,8,9],[10,11,12,13,14,15,16,17,18]]

/-- The 3-row-by-6-byte matrix of the same bytes 1..18. -/
def c10b : PixelMatrix := [[1,2,3,4,5,6],[7,8,9,10,11,12],[13,14,15,16,17,18]]

/-- Witness for C10 at the 2×9-vs-3×6 instance. -/
theorem C10_hash_concat_witness :
    hash c10a = hash c10b ∧ equalImgMatrix c10a c10b true = .ok (true, none) :=
  C10_hash_concat c10a c10b true (by decide)

/-- C5 counterexample: two matrices of unequal height (and unequal row
lengths) whose row concatenations agree compare as a plain `true` — no
`DimensionMismatch` error — whether or not a diff mask was requested. -/
theorem C5_counterexample :
    equalImgMatrix [[0],[0]] [[0,0]] true = .ok (true, none) ∧
    equalImgMatrix [[0],[0]] [[0,0]] false = .ok (true, none) ∧
    ([[0],[0]] : PixelMatrix).length ≠ ([[0,0]] : PixelMatrix).length := by
  decide

/-- Any row-length mismatch inside equal-height matrices makes the row
loop of `diffMatrix` return an error. -/
theorem diffMatrixGo_err :
    ∀ (m1 m2 : PixelMatrix) (y0 : Nat), m1.length = m2.length →
      (∃ y, y < m1.length ∧ (row m1 y).length ≠ (row m2 y).length) →
      ∃ msg, diffMatrixGo m1 m2 y0 = .err msg
  | [], _, _, _, h => absurd h (by simp)
  | r1 :: t1, [], _, hh, _ => absurd hh (by simp)
  | r1 :: t1, r2 :: t2, y0, hh, hex => by
    by_cases hr : r1.length = r2.length
    · obtain ⟨y, hy, hne⟩ := hex
      match y with
      | 0 => exact absurd hr (by simpa [row] using hne)
      | y + 1 =>
        have hh' : t1.length = t2.length := by simpa using hh
        have ⟨msg, hmsg⟩ := diffMatrixGo_err t1 t2 (y0 + 1) hh'
          ⟨y, by simpa using hy, by simpa [row] using hne⟩
        refine ⟨msg, ?_⟩
        unfold diffMatrixGo
        rw [if_neg (by simpa using hr), hmsg]
    · refine ⟨"diffMatrix: inputs do not have the same width at row " ++
        toString y0, ?_⟩
      unfold diffMatrixGo
      rw [if_pos (by simpa using hr)]

/-- C5 (amended): `equalImgMatrix` on dimension-mismatched matrices never
returns a `DimensionMismatch` error.  When the row concatenations agree it
returns a plain `true`; when the digests differ and no mask was requested
it returns a plain `false`; when the digests differ and a mask was
requested, `diffMatrix`'s error is computed but the debug print indexes
the `nil` mask first, so the run panics. -/
theorem C5_amended (m1 m2 : PixelMatrix) (d : Bool)
    (hmm : m1.length ≠ m2.length ∨
      ∃ y, y < m1.length ∧ (row m1 y).length ≠ (row m2 y).length) :
    (m1.flatten = m2.flatten → equalImgMatrix m1 m2 d = .ok (true, none)) ∧
    (hash m1 ≠ hash m2 → d = false → equalImgMatrix m1 m2 d = .ok (false, none)) ∧
    (hash m1 ≠ hash m2 → d = true → ∃ msg, equalImgMatrix m1 m2 d = .panic msg) := by
  refine ⟨fun hf => ?_, fun hne hd => ?_, fun hne hd => ?_⟩
  · have hh := hash_eq_of_flatten_eq hf
    unfold equalImgMatrix
    rw [if_pos hh]
  · subst hd
    unfold equalImgMatrix
    rw [if_neg hne]
    rfl
  · subst hd
    unfold equalImgMatrix
    rw [if_neg hne]
    match hm1 : m1 with
    | [] => exact ⟨_, rfl⟩
    | r1 :: t1 =>
      simp only [List.head?]
      have herr : ∃ msg, diffMatrix (r1 :: t1) m2 = .err msg := by
        unfold diffMatrix
        by_cases hh : (r1 :: t1).length = m2.length
        · rw [if_neg (by simpa using hh)]
          exact diffMatrixGo_err _ _ 0 hh (by
            rcases hmm with h | h
            · exact absurd hh (hm1 ▸ h)
            · exact hm1 ▸ h)
        · exact ⟨_, by rw [if_pos (by simpa using hh)]⟩
      obtain ⟨msg, hmsg⟩ := herr
      rw [hmsg]
      exact ⟨_, rfl⟩

/-- Witness for C5 (amended) at a height-1 versus height-2 instance, for
both settings of the mask flag. -/
theorem C5_amended_witness :
    equalImgMatrix [[5]] [[5],[6]] false = .ok (false, none) ∧
    (∃ msg, equalImgMatrix [[5]] [[5],[6]] true = .panic msg) :=
  ⟨(C5_amended [[5]] [[5],[6]] false (Or.inl (by decide))).2.1 (by decide) rfl,
   (C5_amended [[5]] [[5],[6]] true (Or.inl (by decide))).2.2 (by decide) rfl⟩

/-! ## Theorems: the parser's sample scaling (claim C4) -/

/-- C4: at the failing input — a syntactically well-formed `P3` pixel dump
declaring `maxValue = 0` — the parser hits Go's integer division by zero
and panics instead of returning a `FormatError`; on a positive `maxValue`
the scaling expression maps `maxValue` to 255, `0` to `0`, and generally
`sample` to `sample * 255 / maxValue` (truncating division). -/
theorem C4_maxvalue_zero_panics :
    ppmToMatrix [80,51,10, 49,32,49,10, 48,10, 55,32,55,32,55,10] =
      .panic "runtime error: integer divide by zero" ∧
    scaleSample 7 7 = .ok 255 ∧ scaleSample 0 7 = .ok 0 ∧
    scaleSample 3 7 = .ok (3 * 255 / 7) := by decide

/-- The scaling expression on in-range samples `0 ≤ s ≤ M` is plain
truncating natural division, in particular at most 255. -/
theorem scaleSample_in_range (s M : Int) (h0 : 0 ≤ s) (hsM : s ≤ M) (hM : 0 < M) :
    scaleSample s M = .ok (s.toNat * 255 / M.toNat) := by
  unfold scaleSample
  rw [if_neg (by omega)]
  congr 1
  have hcast : s * 255 = ((s.toNat * 255 : Nat) : Int) := by omega
  have hb : M = ((M.toNat : Nat) : Int) := by omega
  have htdiv : Int.tdiv (s * 255) M = ((s.toNat * 255 / M.toNat : Nat) : Int) := by
    rw [hcast, hb]
    rfl
  have hle : s.toNat * 255 / M.toNat ≤ 255 := by
    have h1 : s.toNat * 255 ≤ M.toNat * 255 :=
      Nat.mul_le_mul_right _ (by omega)
    calc s.toNat * 255 / M.toNat ≤ M.toNat * 255 / M.toNat :=
          Nat.div_le_div_right h1
      _ = 255 := Nat.mul_div_cancel_left 255 (by omega)
  unfold goByte
  rw [htdiv]
  rw [Int.emod_eq_of_lt (by positivity) (by exact_mod_cast Nat.lt_succ_of_le hle)]
  exact Int.toNat_natCast _

/-! ## Theorems: the compositor (claim C2) -/

/-- C2: the compositor at `img1 = [[1,2,3]]`, `img2 = [[4,5,6]]`,
`padding = 1` produces `[1,2,3,0,0,4,5]` — a two-byte (`padding+1`) black
gutter and the second row truncated by its final byte — not the
`[1,2,3,0,4,5,6]` the `padding`-wide-gutter contract describes. -/
theorem C2_joinImages_bug :
    joinImages [[1,2,3]] [[4,5,6]] 1 = .ok [[1,2,3,0,0,4,5]] ∧
    ([[1,2,3,0,0,4,5]] : PixelMatrix) ≠ [[1,2,3,0,4,5,6]] := by decide

/-! ## Theorems: the annotator does not compound (claim C3) -/

/-- C3 counterexample: a 1×2 matrix with both pixels marked and radius 1,
so the two discs overlap on pixel `(0,1)`: that pixel receives exactly one
application of the blend to its original value `(40,60,80)`, namely
`(147,157,40)`, and not the compounded re-blend `highlightPixel
(147,157,40) = (201,206,20)`. -/
theorem C3_counterexample :
    diffImage [[100,100,100,40,60,80]] [[true,true]] 1 =
      .ok [[177,177,50,147,157,40]] ∧
    highlightPixel 40 60 80 = (147,157,40) ∧
    highlightPixel 147 157 40 ≠ (147,157,40) := by decide

/-! ## Theorems: the diff engine (claim C8) -/

/-- `getD` of a map over `List.range`. -/
theorem getD_map_range {β : Type} (f : Nat → β) (n x : Nat) (d : β) :
    ((List.range n).map f).getD x d = if x < n then f x else d := by
  by_cases h : x < n
  · rw [if_pos h, List.getD_eq_getElem?_getD, List.getElem?_map,
      List.getElem?_range h]
    rfl
  · rw [if_neg h]
    exact List.getD_eq_default _ _ (by simpa using Nat.le_of_not_lt h)

/-- An entry of a difference-mask row: true exactly at an in-range pixel
whose 3-byte slices differ. -/
theorem diffRow_getD (r1 r2 : List Nat) (x : Nat) :
    (diffRow r1 r2).getD x false =
      decide (x < r1.length / 3 ∧ pixSlice r1 x ≠ pixSlice r2 x) := by
  unfold diffRow
  rw [getD_map_range]
  by_cases h : x < r1.length / 3
  · simp [h]
  · simp [h]

/-- `getD` of the row-wise zip of two matrices. -/
theorem getD_zipWith_row (m1 m2 : PixelMatrix) (y : Nat) :
    (List.zipWith diffRow m1 m2).getD y [] =
      if y < m1.length ∧ y < m2.length then diffRow (row m1 y) (row m2 y)
      else [] := by
  induction m1 generalizing m2 y with
  | nil => simp [row]
  | cons r1 t1 ih =>
    cases m2 with
    | nil => simp [row]
    | cons r2 t2 =>
      cases y with
      | zero => simp [row]
      | succ y => simpa [row, Nat.succ_lt_succ_iff] using ih t2 y

/-- The row loop of `diffMatrix` under matching dimensions: one
`diffRow` per row pair. -/
theorem diffMatrixGo_ok :
    ∀ (m1 m2 : PixelMatrix) (y0 : Nat), m1.length = m2.length →
      (∀ i, (row m1 i).length = (row m2 i).length) →
      diffMatrixGo m1 m2 y0 = .ok (List.zipWith diffRow m1 m2)
  | [], [], _, _, _ => rfl
  | [], _ :: _, _, hh, _ => absurd hh (by simp)
  | _ :: _, [], _, hh, _ => absurd hh (by simp)
  | r1 :: t1, r2 :: t2, y0, hh, hw => by
    have h0 : r1.length = r2.length := by simpa [row] using hw 0
    have ih := diffMatrixGo_ok t1 t2 (y0 + 1) (by simpa using hh)
      (fun i => by simpa [row] using hw (i + 1))
    unfold diffMatrixGo
    rw [if_neg (by simpa using h0), ih]
    rfl

/-- `diffMatrix` under matching dimensions. -/
theorem diffMatrix_ok (m1 m2 : PixelMatrix) (hh : m1.length = m2.length)
    (hw : ∀ i, (row m1 i).length = (row m2 i).length) :
    diffMatrix m1 m2 = .ok (List.zipWith diffRow m1 m2) := by
  unfold diffMatrix
  rw [if_neg (by simpa using hh)]
  exact diffMatrixGo_ok m1 m2 0 hh hw

/-- The self-diff of a row is all-false. -/
theorem diffRow_self (r : List Nat) :
    diffRow r r = List.replicate (r.length / 3) false := by
  refine List.eq_replicate_iff.2 ⟨?_, ?_⟩
  · unfold diffRow
    rw [List.length_map, List.length_range]
  · intro b hb
    unfold diffRow at hb
    obtain ⟨x, -, hx⟩ := List.mem_map.1 hb
    simpa using hx.symm

/-- The row-wise self-zip is the all-false mask. -/
theorem zipWith_diffRow_self :
    ∀ m : PixelMatrix,
      List.zipWith diffRow m m = m.map fun r => List.replicate (r.length / 3) false
  | [] => rfl
  | r :: t => by
    simp only [List.zipWith_cons_cons, List.map_cons, diffRow_self,
      zipWith_diffRow_self t]

/-- `diffRow` is symmetric for rows of equal length. -/
theorem diffRow_comm (r1 r2 : List Nat) (h : r1.length = r2.length) :
    diffRow r1 r2 = diffRow r2 r1 := by
  unfold diffRow
  rw [h]
  refine List.map_congr_left fun x _ => ?_
  exact decide_eq_decide.mpr ne_comm

/-- The row-wise zip is symmetric when corresponding rows have equal
lengths. -/
theorem zipWith_diffRow_comm :
    ∀ (m1 m2 : PixelMatrix),
      (∀ i, (row m1 i).length = (row m2 i).length) →
      List.zipWith diffRow m1 m2 = List.zipWith diffRow m2 m1
  | [], m2, _ => by cases m2 <;> rfl
  | _ :: _, [], _ => rfl
  | r1 :: t1, r2 :: t2, hw => by
    have h0 : r1.length = r2.length := by simpa [row] using hw 0
    simp only [List.zipWith_cons_cons]
    rw [diffRow_comm r1 r2 h0,
      zipWith_diffRow_comm t1 t2 (fun i => by simpa [row] using hw (i + 1))]

/-- C8: under equal dimensions the diff engine returns a pixel-granularity
mask whose entry `(y,x)` is true iff the 3-byte R,G,B slices at that pixel
differ; the self-diff is all-false; and the mask is symmetric in its two
inputs. -/
theorem C8_diffMatrix_correct (m1 m2 : PixelMatrix)
    (hh : m1.length = m2.length)
    (hw : ∀ i, (row m1 i).length = (row m2 i).length) :
    (∃ mask, diffMatrix m1 m2 = .ok mask ∧
      mask.length = m1.length ∧
      (∀ y, (mask.getD y []).length = (row m1 y).length / 3) ∧
      (∀ y x, (mask.getD y []).getD x false = true ↔
        (y < m1.length ∧ x < (row m1 y).length / 3 ∧
          pixSlice (row m1 y) x ≠ pixSlice (row m2 y) x))) ∧
    diffMatrix m1 m1 = .ok (m1.map fun r => List.replicate (r.length / 3) false) ∧
    diffMatrix m1 m2 = diffMatrix m2 m1 := by
  refine ⟨⟨List.zipWith diffRow m1 m2, diffMatrix_ok m1 m2 hh hw, ?_, ?_, ?_⟩, ?_, ?_⟩
  · rw [List.length_zipWith, hh, Nat.min_self]
  · intro y
    rw [getD_zipWith_row]
    by_cases hy : y < m1.length
    · rw [if_pos ⟨hy, hh ▸ hy⟩]
      unfold diffRow
      rw [List.length_map, List.length_range]
    · rw [if_neg (by simp [hy, hh ▸ hy])]
      have : row m1 y = [] := List.getD_eq_default _ _ (Nat.le_of_not_lt hy)
      simp [this]
  · intro y x
    rw [getD_zipWith_row]
    by_cases hy : y < m1.length
    · rw [if_pos ⟨hy, hh ▸ hy⟩, diffRow_getD]
      simp [hy]
    · rw [if_neg (by simp [hy, hh ▸ hy])]
      simp [hy]
  · rw [diffMatrix_ok m1 m1 rfl (fun _ => rfl)]
    rw [zipWith_diffRow_self]
  · rw [diffMatrix_ok m1 m2 hh hw,
      diffMatrix_ok m2 m1 hh.symm (fun i => (hw i).symm)]
    congr 1
    exact zipWith_diffRow_comm m1 m2 hw

/-- Witness for C8 at two 1×2-pixel matrices differing at pixel `(0,1)`. -/
theorem C8_diffMatrix_correct_witness :
    (∃ mask, diffMatrix [[10,20,30,1,1,1]] [[10,20,30,2,1,1]] = .ok mask ∧
      mask.length = ([[10,20,30,1,1,1]] : PixelMatrix).length ∧
      (∀ y, (mask.getD y []).length = (row [[10,20,30,1,1,1]] y).length / 3) ∧
      (∀ y x, (mask.getD y []).getD x false = true ↔
        (y < ([[10,20,30,1,1,1]] : PixelMatrix).length ∧
          x < (row [[10,20,30,1,1,1]] y).length / 3 ∧
          pixSlice (row [[10,20,30,1,1,1]] y) x ≠
            pixSlice (row [[10,20,30,2,1,1]] y) x))) ∧
    diffMatrix [[10,20,30,1,1,1]] [[10,20,30,1,1,1]] =
      .ok (([[10,20,30,1,1,1]] : PixelMatrix).map fun r =>
        List.replicate (r.length / 3) false) ∧
    diffMatrix [[10,20,30,1,1,1]] [[10,20,30,2,1,1]] =
      diffMatrix [[10,20,30,2,1,1]] [[10,20,30,1,1,1]] :=
  C8_diffMatrix_correct [[10,20,30,1,1,1]] [[10,20,30,2,1,1]] rfl
    (fun i => match i with | 0 => rfl | _ + 1 => rfl)

/-! ## Theorems: the annotator (claims C3, C9)

The invariant `AnnOK mat nm`: the working buffer has the dimensions of the
original, and each of its pixels carries either the original value at its
own coordinates or a single blend of that original value — never a value
wrapped in from other coordinates and never a double blend, because every
stamp reads from the untouched original. -/

/-- Invariant of the annotation pass relative to the original matrix. -/
def AnnOK (mat nm : PixelMatrix) : Prop :=
  nm.length = mat.length ∧
  (∀ i, (row nm i).length = (row mat i).length) ∧
  (∀ y p, pix nm y p = pix mat y p ∨ pix nm y p = hp3 (pix mat y p))

/-- `row` after `List.set`. -/
theorem row_set :
    ∀ (m : PixelMatrix) (i : Nat) (r : List Nat) (j : Nat),
      row (m.set i r) j = if i = j ∧ i < m.length then r else row m j
  | [], i, r, j => by simp [row]
  | a :: t, 0, r, 0 => by simp [row]
  | a :: t, 0, r, j + 1 => by simp [row]
  | a :: t, i + 1, r, 0 => by simp [row]
  | a :: t, i + 1, r, j + 1 => by
    have h := row_set t i r j
    simp only [List.set, row, List.getD_cons_succ, List.length_cons] at h ⊢
    rw [h]
    by_cases hc : i = j ∧ i < t.length
    · rw [if_pos hc, if_pos (by omega)]
    · rw [if_neg hc, if_neg (by omega)]

/-- `getD` after `List.set` on a row. -/
theorem getD_set :
    ∀ (l : List Nat) (i v j : Nat),
      (l.set i v).getD j 0 = if i = j ∧ i < l.length then v else l.getD j 0
  | [], i, v, j => by simp
  | a :: t, 0, v, 0 => by simp
  | a :: t, 0, v, j + 1 => by simp
  | a :: t, i + 1, v, 0 => by simp
  | a :: t, i + 1, v, j + 1 => by
    have h := getD_set t i v j
    simp only [List.set, List.getD_cons_succ, List.length_cons] at h ⊢
    rw [h]
    by_cases hc : i = j ∧ i < t.length
    · rw [if_pos hc, if_pos (by omega)]
    · rw [if_neg hc, if_neg (by omega)]

/-- A successful bounds-checked read is `getD`. -/
theorem mget_ok (m : PixelMatrix) (y x : Nat) (hy : y < m.length)
    (hx : x < (row m y).length) :
    mget m y x = .ok ((row m y).getD x 0) := by
  have h1 : m[y]? = some (row m y) := by
    rw [List.getElem?_eq_getElem hy]
    exact congrArg some (List.getD_eq_getElem m [] hy).symm
  have h2 : (row m y)[x]? = some ((row m y).getD x 0) := by
    rw [List.getElem?_eq_getElem hx]
    exact congrArg some (List.getD_eq_getElem _ 0 hx).symm
  simp only [mget, h1, h2]

/-- A successful bounds-checked write is `List.set`. -/
theorem mset_ok (m : PixelMatrix) (y x v : Nat) (hy : y < m.length)
    (hx : x < (row m y).length) :
    mset m y x v = .ok (m.set y ((row m y).set x v)) := by
  have h1 : m[y]? = some (row m y) := by
    rw [List.getElem?_eq_getElem hy]
    exact congrArg some (List.getD_eq_getElem m [] hy).symm
  simp only [mset, h1]
  rw [if_pos hx]

/-- The buffer after writing the three bytes of pixel `(my, p)`. -/
def writePixel (nm : PixelMatrix) (my p : Nat) (t : Nat × Nat × Nat) :
    PixelMatrix :=
  nm.set my ((((row nm my).set (3 * p) t.1).set (3 * p + 1) t.2.1).set
    (3 * p + 2) t.2.2)

/-- The three chained `mset`s of one stamp cell produce `writePixel`. -/
theorem mset_chain (nm : PixelMatrix) (my p : Nat) (a b c : Nat)
    (hy : my < nm.length) (hx : 3 * p + 2 < (row nm my).length) :
    (mset nm my (3 * p) a).bind (fun nm1 =>
      (mset nm1 my (3 * p + 1) b).bind (fun nm2 =>
        mset nm2 my (3 * p + 2) c)) = .ok (writePixel nm my p (a, b, c)) := by
  rw [mset_ok nm my (3 * p) a hy (by omega)]
  simp only [GoRes.bind]
  have hy1 : my < (nm.set my ((row nm my).set (3 * p) a)).length := by
    simpa using hy
  have hrow1 : row (nm.set my ((row nm my).set (3 * p) a)) my =
      (row nm my).set (3 * p) a := by
    rw [row_set]
    exact if_pos ⟨rfl, hy⟩
  rw [mset_ok _ my (3 * p + 1) b hy1
    (by rw [hrow1]; simp only [List.length_set]; omega)]
  rw [hrow1, List.set_set]
  simp only [GoRes.bind]
  have hy2 : my <
      (nm.set my (((row nm my).set (3 * p) a).set (3 * p + 1) b)).length := by
    simpa using hy
  have hrow2 : row
      (nm.set my (((row nm my).set (3 * p) a).set (3 * p + 1) b)) my =
      ((row nm my).set (3 * p) a).set (3 * p + 1) b := by
    rw [row_set]
    exact if_pos ⟨rfl, hy⟩
  rw [mset_ok _ my (3 * p + 2) c hy2
    (by rw [hrow2]; simp only [List.length_set]; omega)]
  rw [hrow2, List.set_set]
  rfl

/-- Dimensions after `writePixel`. -/
theorem writePixel_length (nm : PixelMatrix) (my p : Nat) (t : Nat × Nat × Nat) :
    (writePixel nm my p t).length = nm.length := by
  simp [writePixel]

/-- Row lengths after `writePixel`. -/
theorem row_length_writePixel (nm : PixelMatrix) (my p : Nat)
    (t : Nat × Nat × Nat) (j : Nat) :
    (row (writePixel nm my p t) j).length = (row nm j).length := by
  unfold writePixel
  rw [row_set]
  by_cases hc : my = j ∧ my < nm.length
  · rw [if_pos hc]
    simp only [List.length_set]
    rw [hc.1]
  · rw [if_neg hc]

/-- The written pixel carries the written triple. -/
theorem pix_writePixel_self (nm : PixelMatrix) (my p : Nat) (t : Nat × Nat × Nat)
    (hy : my < nm.length) (hx : 3 * p + 2 < (row nm my).length) :
    pix (writePixel nm my p t) my p = t := by
  have hrw : row (writePixel nm my p t) my =
      (((row nm my).set (3 * p) t.1).set (3 * p + 1) t.2.1).set
        (3 * p + 2) t.2.2 := by
    unfold writePixel
    rw [row_set]
    exact if_pos ⟨rfl, hy⟩
  have c1 : ((((row nm my).set (3 * p) t.1).set (3 * p + 1) t.2.1).set
      (3 * p + 2) t.2.2).getD (3 * p) 0 = t.1 := by
    rw [getD_set, if_neg (by omega), getD_set, if_neg (by omega), getD_set,
      if_pos ⟨rfl, by omega⟩]
  have c2 : ((((row nm my).set (3 * p) t.1).set (3 * p + 1) t.2.1).set
      (3 * p + 2) t.2.2).getD (3 * p + 1) 0 = t.2.1 := by
    rw [getD_set, if_neg (by omega), getD_set,
      if_pos ⟨rfl, by simp only [List.length_set]; omega⟩]
  have c3 : ((((row nm my).set (3 * p) t.1).set (3 * p + 1) t.2.1).set
      (3 * p + 2) t.2.2).getD (3 * p + 2) 0 = t.2.2 := by
    rw [getD_set, if_pos ⟨rfl, by simp only [List.length_set]; omega⟩]
  unfold pix
  rw [hrw, c1, c2, c3]

/-- Other pixels are untouched by `writePixel`. -/
theorem pix_writePixel_other (nm : PixelMatrix) (my p : Nat)
    (t : Nat × Nat × Nat) (y q : Nat) (h : y ≠ my ∨ q ≠ p) :
    pix (writePixel nm my p t) y q = pix nm y q := by
  by_cases hym : y = my
  · subst hym
    have hq : q ≠ p := by
      rcases h with h | h
      · exact absurd rfl h
      · exact h
    by_cases hlen : y < nm.length
    · have hrw : row (writePixel nm y p t) y =
          (((row nm y).set (3 * p) t.1).set (3 * p + 1) t.2.1).set
            (3 * p + 2) t.2.2 := by
        unfold writePixel
        rw [row_set]
        exact if_pos ⟨rfl, hlen⟩
      have c1 : ((((row nm y).set (3 * p) t.1).set (3 * p + 1) t.2.1).set
          (3 * p + 2) t.2.2).getD (3 * q) 0 = (row nm y).getD (3 * q) 0 := by
        rw [getD_set, if_neg (by omega), getD_set, if_neg (by omega), getD_set,
          if_neg (by omega)]
      have c2 : ((((row nm y).set (3 * p) t.1).set (3 * p + 1) t.2.1).set
          (3 * p + 2) t.2.2).getD (3 * q + 1) 0 =
          (row nm y).getD (3 * q + 1) 0 := by
        rw [getD_set, if_neg (by omega), getD_set, if_neg (by omega), getD_set,
          if_neg (by omega)]
      have c3 : ((((row nm y).set (3 * p) t.1).set (3 * p + 1) t.2.1).set
          (3 * p + 2) t.2.2).getD (3 * q + 2) 0 =
          (row nm y).getD (3 * q + 2) 0 := by
        rw [getD_set, if_neg (by omega), getD_set, if_neg (by omega), getD_set,
          if_neg (by omega)]
      unfold pix
      rw [hrw, c1, c2, c3]
    · have hrw : row (writePixel nm y p t) y = row nm y := by
        unfold writePixel
        rw [row_set]
        exact if_neg (by omega)
      unfold pix
      rw [hrw]
  · have hrw : row (writePixel nm my p t) y = row nm y := by
      unfold writePixel
      rw [row_set]
      exact if_neg (fun hc => hym hc.1.symm)
    unfold pix
    rw [hrw]

/-- Rows of a uniform matrix in range have the uniform length. -/
theorem row_length_of_uniform {m : PixelMatrix} {L : Nat}
    (hu : uniformRows m L) {i : Nat} (hi : i < m.length) :
    (row m i).length = L := by
  have : row m i = m[i] := List.getD_eq_getElem m [] hi
  rw [this]
  exact hu _ (List.getElem_mem hi)

/-- Folding a step that preserves an invariant and never fails. -/
theorem foldGo_inv {σ α : Type} (f : σ → α → GoRes σ) (P : σ → Prop) :
    ∀ (l : List α) (s : σ), P s →
      (∀ s' a, a ∈ l → P s' → ∃ s'', f s' a = .ok s'' ∧ P s'') →
      ∃ s', foldGo f s l = .ok s' ∧ P s'
  | [], s, hs, _ => ⟨s, rfl, hs⟩
  | a :: as, s, hs, hstep => by
    obtain ⟨s1, h1, hP1⟩ := hstep s a (List.mem_cons_self a as) hs
    obtain ⟨s', h', hP'⟩ := foldGo_inv f P as s1 hP1
      (fun s'' b hb => hstep s'' b (List.mem_cons_of_mem a hb))
    refine ⟨s', ?_, hP'⟩
    simp only [foldGo, h1]
    exact h'

/-- One stamp-cell step: clipped or zero cells leave the buffer unchanged;
a written cell blends the original matrix's own pixel, preserving
`AnnOK`. -/
theorem stampColStep_ok (mat stamp : PixelMatrix) (L sc pc my y x : Nat)
    (hu : uniformRows mat L) (hst : uniformRows stamp sc)
    (hys : y < stamp.length) (hmy : my < mat.length) (hx : x < sc)
    (nm : PixelMatrix) (hAnn : AnnOK mat nm) :
    ∃ nm', stampColStep mat stamp sc (3 * pc) my L y nm x = .ok nm' ∧
      AnnOK mat nm' := by
  simp only [stampColStep]
  by_cases hg : ((3 * pc : Nat) : Int) - (sc / 2 : Nat) * 3 + x * 3 < 0 ∨
      (L : Int) ≤ ((3 * pc : Nat) : Int) - (sc / 2 : Nat) * 3 + x * 3 + 2
  · rw [if_pos hg]
    exact ⟨nm, rfl, hAnn⟩
  · rw [if_neg hg]
    push_neg at hg
    rw [mget_ok stamp y x hys (by rw [row_length_of_uniform hst hys]; omega)]
    simp only [GoRes.bind]
    by_cases hsv : (row stamp y).getD x 0 = 0
    · rw [if_pos hsv]
      exact ⟨nm, rfl, hAnn⟩
    · rw [if_neg hsv]
      have hfac : ((3 * pc : Nat) : Int) - (sc / 2 : Nat) * 3 + x * 3 =
          3 * ((pc : Int) - (sc / 2 : Nat) + x) := by
        push_cast
        ring
      have hp' : (((3 * pc : Nat) : Int) - (sc / 2 : Nat) * 3 + x * 3).toNat =
          3 * ((pc : Int) - (sc / 2 : Nat) + x).toNat := by
        omega
      rw [hp']
      have hL : (row mat my).length = L := row_length_of_uniform hu hmy
      have hb2 : 3 * ((pc : Int) - (sc / 2 : Nat) + x).toNat + 2 < L := by
        omega
      rw [mget_ok mat my _ hmy (by omega)]
      simp only [GoRes.bind]
      rw [mget_ok mat my _ hmy (by omega)]
      simp only [GoRes.bind]
      rw [mget_ok mat my _ hmy (by omega)]
      simp only [GoRes.bind]
      have hnm_my : my < nm.length := by
        rw [hAnn.1]
        exact hmy
      have hnm_row : 3 * ((pc : Int) - (sc / 2 : Nat) + x).toNat + 2 <
          (row nm my).length := by
        rw [hAnn.2.1 my, hL]
        exact hb2
      refine ⟨_, mset_chain nm my ((pc : Int) - (sc / 2 : Nat) + x).toNat
        _ _ _ hnm_my hnm_row, ?_, ?_, ?_⟩
      · rw [writePixel_length]
        exact hAnn.1
      · intro i
        rw [row_length_writePixel]
        exact hAnn.2.1 i
      · intro y' q
        by_cases hpq : y' = my ∧ q = ((pc : Int) - (sc / 2 : Nat) + x).toNat
        · obtain ⟨rfl, rfl⟩ := hpq
          right
          rw [pix_writePixel_self nm y' _ _ hnm_my hnm_row]
          rfl
        · rw [pix_writePixel_other nm my _ _ y' q
            (by rcases Decidable.not_and_iff_or_not.1 hpq with h | h
                · exact Or.inl h
                · exact Or.inr h)]
          exact hAnn.2.2 y' q

/-- The length of `circle r`. -/
theorem circle_length (radius : Nat) :
    (circle radius).length = 2 * radius + 1 := by
  simp only [circle, List.length_map, List.length_range]

/-- `circle r` is nonempty. -/
theorem circle_ne (radius : Nat) : circle radius ≠ [] := by
  intro h
  have := congrArg List.length h
  rw [circle_length] at this
  simp at this

/-- `circle r` has uniform row length `2r+1`. -/
theorem circle_uniform (radius : Nat) :
    uniformRows (circle radius) (2 * radius + 1) := by
  intro r hr
  simp only [circle, List.mem_map] at hr
  obtain ⟨y, -, rfl⟩ := hr
  simp only [List.length_map, List.length_range]

/-- One whole stamp placement preserves `AnnOK` and never fails, for a
pixel-aligned centre column. -/
theorem highlightStamp_ok (mat nm stamp : PixelMatrix) (L sc pc cy : Nat)
    (hne : mat ≠ []) (hu : uniformRows mat L)
    (hsne : stamp ≠ []) (hst : uniformRows stamp sc)
    (hAnn : AnnOK mat nm) :
    ∃ nm', highlightStamp mat nm stamp (3 * pc) cy = .ok nm' ∧
      AnnOK mat nm' := by
  obtain ⟨srow, stl, rfl⟩ : ∃ a l, stamp = a :: l := by
    cases stamp with
    | nil => exact absurd rfl hsne
    | cons a l => exact ⟨a, l, rfl⟩
  obtain ⟨irow, itl, rfl⟩ : ∃ a l, mat = a :: l := by
    cases mat with
    | nil => exact absurd rfl hne
    | cons a l => exact ⟨a, l, rfl⟩
  simp only [highlightStamp, List.head?]
  have hsc : srow.length = sc := hst _ (List.mem_cons_self _ _)
  have hL : irow.length = L := hu _ (List.mem_cons_self _ _)
  rw [hsc, hL]
  apply foldGo_inv _ (AnnOK (irow :: itl)) _ nm hAnn
  intro nm' y hyin hP
  by_cases hg : ((cy : Int) - ((srow :: stl).length / 2 : Nat) + (y : Int) < 0 ∨
      (((irow :: itl).length : Nat) : Int) ≤
        (cy : Int) - ((srow :: stl).length / 2 : Nat) + (y : Int))
  · rw [if_pos hg]
    exact ⟨nm', rfl, hP⟩
  · rw [if_neg hg]
    push_neg at hg
    have hmy : ((cy : Int) - ((srow :: stl).length / 2 : Nat) + (y : Int)).toNat <
        (irow :: itl).length := by
      omega
    apply foldGo_inv _ (AnnOK (irow :: itl)) _ nm' hP
    intro nm'' x hxin hP'
    exact stampColStep_ok (irow :: itl) (srow :: stl) L sc pc _ y x hu hst
      (List.mem_range.1 hyin) hmy (List.mem_range.1 hxin) nm'' hP'

/-- The whole annotation pass: for a nonempty matrix of uniform row
length, any mask and any radius, `diffImage` succeeds and satisfies
`AnnOK` — dimensions preserved, and every pixel either original or blended
once from the original at the same coordinates. -/
theorem diffImage_ok (mat : PixelMatrix) (mask : List (List Bool))
    (radius L : Nat) (hne : mat ≠ []) (hu : uniformRows mat L) :
    ∃ out, diffImage mat mask radius = .ok out ∧ AnnOK mat out := by
  simp only [diffImage]
  apply foldGo_inv _ (AnnOK mat) _ mat ⟨rfl, fun _ => rfl, fun _ _ => Or.inl rfl⟩
  intro nm yrow hymem hP
  apply foldGo_inv _ (AnnOK mat) _ nm hP
  intro nm' xb hxmem hP'
  by_cases hb : xb.2 = true
  · rw [if_pos hb, Nat.mul_comm]
    exact highlightStamp_ok mat nm' (circle radius) L (2 * radius + 1) xb.1
      yrow.1 hne hu (circle_ne radius) (circle_uniform radius) hP'
  · rw [if_neg hb]
    exact ⟨nm', rfl, hP'⟩

/-- C9: for any (nonempty, uniform-row) matrix, any diff mask and any
radius, every stamp — including ones whose footprint leaves the matrix,
such as a disc centred at corner `(0,0)` — is clipped to the matrix: the
annotator neither panics (every write in the embedding is bounds-checked,
so success means no out-of-bounds write occurred) nor wraps (every output
pixel derives only from the input pixel at its own coordinates), and the
output has exactly the input's dimensions. -/
theorem C9_annotator_clipping (mat : PixelMatrix) (mask : List (List Bool))
    (radius L : Nat) (hne : mat ≠ []) (hu : uniformRows mat L) :
    ∃ out, diffImage mat mask radius = .ok out ∧
      out.length = mat.length ∧
      (∀ i, (row out i).length = (row mat i).length) ∧
      (∀ y p, pix out y p = pix mat y p ∨ pix out y p = hp3 (pix mat y p)) := by
  obtain ⟨out, hout, h1, h2, h3⟩ := diffImage_ok mat mask radius L hne hu
  exact ⟨out, hout, h1, h2, h3⟩

/-- Witness for C9: a stamp of radius 5 centred at corner `(0,0)` of a
2×2-pixel matrix. -/
theorem C9_annotator_clipping_witness :
    ∃ out, diffImage [[1,2,3,4,5,6],[7,8,9,10,11,12]]
        [[true,false],[false,false]] 5 = .ok out ∧
      out.length = ([[1,2,3,4,5,6],[7,8,9,10,11,12]] : PixelMatrix).length ∧
      (∀ i, (row out i).length =
        (row [[1,2,3,4,5,6],[7,8,9,10,11,12]] i).length) ∧
      (∀ y p, pix out y p = pix [[1,2,3,4,5,6],[7,8,9,10,11,12]] y p ∨
        pix out y p = hp3 (pix [[1,2,3,4,5,6],[7,8,9,10,11,12]] y p)) :=
  C9_annotator_clipping [[1,2,3,4,5,6],[7,8,9,10,11,12]]
    [[true,false],[false,false]] 5 6 (by decide)
    (by simp [uniformRows])

/-- C3 (amended): overlapping highlight discs do not compound.  Every
stamp blends against the untouched original matrix, so each output pixel
is either its original value or the result of exactly one application of
`highlightPixel` to that original value — a pixel covered by several
overlapping discs is simply overwritten with that same single-blend
value. -/
theorem C3_no_compounding (mat : PixelMatrix) (mask : List (List Bool))
    (radius L : Nat) (hne : mat ≠ []) (hu : uniformRows mat L) :
    ∃ out, diffImage mat mask radius = .ok out ∧
      ∀ y p, pix out y p = pix mat y p ∨ pix out y p = hp3 (pix mat y p) := by
  obtain ⟨out, hout, -, -, h3⟩ := diffImage_ok mat mask radius L hne hu
  exact ⟨out, hout, h3⟩

/-- Witness for C3 (amended) at the overlapping-disc instance of the
counterexample. -/
theorem C3_no_compounding_witness :
    ∃ out, diffImage [[100,100,100,40,60,80]] [[true,true]] 1 = .ok out ∧
      ∀ y p, pix out y p = pix [[100,100,100,40,60,80]] y p ∨
        pix out y p = hp3 (pix [[100,100,100,40,60,80]] y p) :=
  C3_no_compounding [[100,100,100,40,60,80]] [[true,true]] 1 6
    (by decide) (by simp [uniformRows])

/-! ## Theorems: the orchestrator (claims C1, C6, C7) -/

/-- The render-and-parse contract for one page of one file. -/
def pageOk (env : Env) (f : String) (res p : Nat) (m : PixelMatrix) : Prop :=
  ∃ ppm, env.render f p res = .ok ppm ∧ ppmToMatrix ppm = .ok m

/-- The per-page output file name `<file1>-<page>-diff.png`. -/
def fname (f : String) (p : Nat) : String :=
  f ++ "-" ++ toString p ++ "-diff.png"

/-- Hash-equal matrices compare equal with no mask. -/
theorem equalImgMatrix_eq {m1 m2 : PixelMatrix} (h : hash m1 = hash m2)
    (d : Bool) : equalImgMatrix m1 m2 d = .ok (true, none) := by
  unfold equalImgMatrix
  rw [if_pos h]

/-- Hash-unequal matrices with no mask requested compare plain false. -/
theorem equalImgMatrix_neq_nodiff {m1 m2 : PixelMatrix}
    (h : hash m1 ≠ hash m2) :
    equalImgMatrix m1 m2 false = .ok (false, none) := by
  unfold equalImgMatrix
  rw [if_neg h]
  rfl

/-- Hash-unequal matrices of matching dimensions, mask requested: plain
false with the `diffMatrix` mask. -/
theorem equalImgMatrix_neq_diff {m1 m2 : PixelMatrix}
    (hne : hash m1 ≠ hash m2) (hm1 : m1 ≠ [])
    (hh : m1.length = m2.length)
    (hw : ∀ i, (row m1 i).length = (row m2 i).length) :
    equalImgMatrix m1 m2 true = .ok (false, some (List.zipWith diffRow m1 m2)) := by
  unfold equalImgMatrix
  rw [if_neg hne]
  obtain ⟨r1, t1, rfl⟩ : ∃ a l, m1 = a :: l := by
    cases m1 with
    | nil => exact absurd rfl hm1
    | cons a l => exact ⟨a, l, rfl⟩
  obtain ⟨r2, t2, rfl⟩ : ∃ a l, m2 = a :: l := by
    cases m2 with
    | nil => exact absurd hh (by simp)
    | cons a l => exact ⟨a, l, rfl⟩
  rw [diffMatrix_ok _ _ hh hw]
  rfl

/-- One page-loop iteration under a break-free equal page. -/
theorem comparePages_break (env : Env) (f1 f2 : String) (res ratio : Nat)
    (mats1 mats2 : Nat → PixelMatrix) (k : Nat) :
    ∀ (m a : Nat) (tr : List (String × Nat)) (wr : List String)
      (pngs : List (Nat × String)),
      a < k → k ≤ a + m →
      (∀ p, a + 1 ≤ p → p ≤ k → pageOk env f1 res p (mats1 p)) →
      (∀ p, a + 1 ≤ p → p ≤ k → pageOk env f2 res p (mats2 p)) →
      (∀ p, a + 1 ≤ p → p < k → hash (mats1 p) = hash (mats2 p)) →
      hash (mats1 k) ≠ hash (mats2 k) →
      comparePages env f1 f2 false false res ratio (List.range' a m) true
          tr wr pngs =
        ⟨.ok false,
         tr ++ (List.range' (a + 1) (k - a)).flatMap
           (fun p => [(f1, p), (f2, p)]),
         wr, pngs⟩
  | 0, a, tr, wr, pngs, hak, hka, _, _, _, _ => absurd hka (by omega)
  | m + 1, a, tr, wr, pngs, hak, hka, hr1, hr2, heq, hdiff => by
    obtain ⟨ppm1, hren1, hmat1⟩ := hr1 (a + 1) (by omega) (by omega)
    obtain ⟨ppm2, hren2, hmat2⟩ := hr2 (a + 1) (by omega) (by omega)
    show comparePages env f1 f2 false false res ratio
      (a :: List.range' (a + 1) m) true tr wr pngs = _
    simp only [comparePages, hren1, hren2, hmat1, hmat2, Bool.or_false]
    by_cases hk : a + 1 = k
    · subst hk
      rw [show a + 1 - a = 1 by omega]
      simp [equalImgMatrix_neq_nodiff hdiff, List.range']
    · simp only [equalImgMatrix_eq (heq (a + 1) (by omega) (by omega)) false,
        Bool.and_true, Bool.not_eq_true, Bool.false_eq_true, and_false,
        if_false, not_true_eq_false, false_and, ite_false]
      rw [comparePages_break env f1 f2 res ratio mats1 mats2 k m (a + 1)
        (tr ++ [(f1, a + 1)] ++ [(f2, a + 1)]) wr pngs (by omega) (by omega)
        (fun p h1 h2 => hr1 p (by omega) h2)
        (fun p h1 h2 => hr2 p (by omega) h2)
        (fun p h1 h2 => heq p (by omega) h2) hdiff]
      have hsz : k - a = (k - (a + 1)) + 1 := by omega
      rw [hsz]
      simp [List.range', List.flatMap_cons, List.append_assoc]

/-- C7: with neither image nor document output requested and equal page
counts, the orchestrator renders and compares exactly pages 1..k, where k
is the first differing page, performs no annotation work (no files are
written, no `PageFile` recorded, no pdf built), and reports false. -/
theorem C7_short_circuit (env : Env) (f1 f2 : String) (res ratio n k : Nat)
    (mats1 mats2 : Nat → PixelMatrix)
    (hne : f1 ≠ f2)
    (hc1 : env.pageCount f1 = .ok n) (hc2 : env.pageCount f2 = .ok n)
    (hk1 : 1 ≤ k) (hkn : k ≤ n)
    (hr1 : ∀ p, 1 ≤ p → p ≤ k → pageOk env f1 res p (mats1 p))
    (hr2 : ∀ p, 1 ≤ p → p ≤ k → pageOk env f2 res p (mats2 p))
    (heq : ∀ p, 1 ≤ p → p < k → hash (mats1 p) = hash (mats2 p))
    (hdiff : hash (mats1 k) ≠ hash (mats2 k)) :
    EqualPDFs env f1 f2 false false res ratio =
      ⟨.ok false,
       (List.range' 1 k).flatMap (fun p => [(f1, p), (f2, p)]),
       [], [], false⟩ := by
  simp only [EqualPDFs, hc1, hc2]
  rw [if_neg hne, if_neg (by simp)]
  rw [List.range_eq_range']
  rw [comparePages_break env f1 f2 res ratio mats1 mats2 k n 0 [] [] []
    (by omega) (by omega) (fun p h1 h2 => hr1 p h1 h2)
    (fun p h1 h2 => hr2 p h1 h2) (fun p h1 h2 => heq p h1 h2) hdiff]
  simp

/-- A binary 1×1 test page with all three samples `v`. -/
def pgT (v : Nat) : List Nat := [80,54,10, 49,32,49,10, 50,53,53,10, v,v,v]

/-- A 3-page test environment: the two documents agree except on page 2
of file "b". -/
def envT : Env :=
  { pageCount := fun _ => .ok 3
    render := fun f p _ => .ok (pgT (if f = "b" ∧ p = 2 then 9 else p)) }

/-- Parsed pages of file "a" in `envT`. -/
def matsT1 : Nat → PixelMatrix := fun p => [[p, p, p]]

/-- Parsed pages of file "b" in `envT`. -/
def matsT2 : Nat → PixelMatrix := fun p =>
  if p = 2 then [[9, 9, 9]] else [[p, p, p]]

/-- Witness for C7: two 3-page documents differing only on page 2, no
outputs requested — pages 1 and 2 of each file are rendered, page 3
never, the result is false and no file is written. -/
theorem C7_short_circuit_witness :
    EqualPDFs envT "a" "b" false false 2 30 =
      ⟨.ok false,
       (List.range' 1 2).flatMap (fun p => [("a", p), ("b", p)]),
       [], [], false⟩ :=
  C7_short_circuit envT "a" "b" 2 30 3 2 matsT1 matsT2
    (by decide) rfl rfl (by omega) (by omega)
    (fun p h1 h2 => by
      interval_cases p
      · exact ⟨pgT 1, by decide, by decide⟩
      · exact ⟨pgT 2, by decide, by decide⟩)
    (fun p h1 h2 => by
      interval_cases p
      · exact ⟨pgT 1, by decide, by decide⟩
      · exact ⟨pgT 9, by decide, by decide⟩)
    (fun p h1 h2 => by
      interval_cases p
      rfl)
    (by decide)

/-- A page-count-mismatch environment: file "a" has 1 page, others 2. -/
def env6 : Env :=
  { pageCount := fun f => if f = "a" then .ok 1 else .ok 2
    render := fun _ _ _ => .err "renderer failed" }

/-- C6 counterexample: with document output requested (and image output
not), differing page counts still short-circuit to false with no page
rendered — the orchestrator does not continue over the common range as
the claim's "otherwise" clause asserts. -/
theorem C6_counterexample :
    EqualPDFs env6 "a" "b" false true 300 30 =
      ⟨.ok false, [], [], [], false⟩ ∧
    env6.pageCount "a" = .ok 1 ∧ env6.pageCount "b" = .ok 2 := by decide

/-- Splitting membership in `tr ++ [(f1,p)]`. -/
theorem mem_tr1 {q : String × Nat} {tr : List (String × Nat)} {f1 : String}
    {p : Nat} (hq : q ∈ tr ++ [(f1, p)]) : q ∈ tr ∨ q.2 = p := by
  rcases List.mem_append.1 hq with h | h
  · exact Or.inl h
  · right
    rw [List.mem_singleton.1 h]

/-- Splitting membership in `tr ++ [(f1,p)] ++ [(f2,p)]`. -/
theorem mem_tr2 {q : String × Nat} {tr : List (String × Nat)} {f1 f2 : String}
    {p : Nat} (hq : q ∈ tr ++ [(f1, p)] ++ [(f2, p)]) : q ∈ tr ∨ q.2 = p := by
  rcases List.mem_append.1 hq with h | h
  · exact mem_tr1 h
  · right
    rw [List.mem_singleton.1 h]

/-- Every renderer invocation of the page loop is for a page from the
processed index list. -/
theorem comparePages_renders_sub (env : Env) (f1 f2 : String)
    (images pdfb : Bool) (res ratio : Nat) :
    ∀ (is : List Nat) (s : Bool) (tr : List (String × Nat)) (wr : List String)
      (pngs : List (Nat × String)) (q : String × Nat),
      q ∈ (comparePages env f1 f2 images pdfb res ratio is s tr wr pngs).renders →
      q ∈ tr ∨ ∃ i ∈ is, q.2 = i + 1
  | [], _, _, _, _, _, hq => Or.inl hq
  | i :: rest, s, tr, wr, pngs, q, hq => by
    simp only [comparePages] at hq
    repeat' split at hq
    all_goals (
      try dsimp only at hq
      first
      | exact Or.inl hq
      | (rcases mem_tr1 hq with h | h
         · exact Or.inl h
         · exact Or.inr ⟨i, List.mem_cons_self _ _, h⟩)
      | (rcases mem_tr2 hq with h | h
         · exact Or.inl h
         · exact Or.inr ⟨i, List.mem_cons_self _ _, h⟩)
      | (rcases comparePages_renders_sub env f1 f2 images pdfb res ratio
            rest _ _ _ _ q hq with h | ⟨j, hj, hq2⟩
         · rcases mem_tr2 h with h' | h'
           · exact Or.inl h'
           · exact Or.inr ⟨i, List.mem_cons_self _ _, h'⟩
         · exact Or.inr ⟨j, List.mem_cons_of_mem _ hj, hq2⟩))

/-- C6 (amended): with differing page counts, the short-circuit to false
with no rendering happens whenever per-page image output is NOT requested,
regardless of document output; when image output IS requested, the loop
runs over the first document's page range (every renderer call is for a
page in `1..n1`). -/
theorem C6_amended (env : Env) (f1 f2 : String) (pdfb : Bool)
    (res ratio n1 n2 : Nat) (hne : f1 ≠ f2)
    (hc1 : env.pageCount f1 = .ok n1) (hc2 : env.pageCount f2 = .ok n2)
    (hnn : n1 ≠ n2) :
    EqualPDFs env f1 f2 false pdfb res ratio = ⟨.ok false, [], [], [], false⟩ ∧
    (∀ q ∈ (EqualPDFs env f1 f2 true pdfb res ratio).renders,
      1 ≤ q.2 ∧ q.2 ≤ n1) := by
  constructor
  · simp only [EqualPDFs, hc1, hc2]
    rw [if_neg hne, if_pos ⟨hnn, trivial⟩]
  · intro q hq
    simp only [EqualPDFs, hc1, hc2] at hq
    rw [if_neg hne, if_neg (by simp)] at hq
    repeat' split at hq
    all_goals (
      try dsimp only at hq
      rcases comparePages_renders_sub env f1 f2 true pdfb res ratio
        (List.range n1) true [] [] [] q hq with h | ⟨j, hj, hq2⟩
      · cases h
      · have hj' := List.mem_range.1 hj
        omega)

/-- Witness for C6 (amended) in the mismatched-count environment. -/
theorem C6_amended_witness :
    EqualPDFs env6 "a" "b" false true 300 30 =
      ⟨.ok false, [], [], [], false⟩ ∧
    (∀ q ∈ (EqualPDFs env6 "a" "b" true true 300 30).renders,
      1 ≤ q.2 ∧ q.2 ≤ 1) :=
  C6_amended env6 "a" "b" true 300 30 1 2 (by decide) rfl rfl (by omega)

/-- The pages from the first differing page onward, as the page loop
accumulates them: `ts p` is "page p hash-compares equal", `s` the running
aggregate flag; a page is collected exactly when the running flag is false
at that page. -/
def latePages (ts : Nat → Bool) : List Nat → Bool → List Nat
  | [], _ => []
  | p :: rest, s =>
    if s && ts p then latePages ts rest (s && ts p)
    else p :: latePages ts rest (s && ts p)

/-- `latePages` on consecutive pages is a filter: page `k` is collected
iff the flag started false or some page `≤ k` in the range differs. -/
theorem latePages_range' (ts : Nat → Bool) :
    ∀ (m a : Nat) (s : Bool),
      latePages ts (List.range' a m) s =
        (List.range' a m).filter
          (fun k => !s || (List.range' a (k + 1 - a)).any fun j => !ts j)
  | 0, _, _ => rfl
  | m + 1, a, s => by
    have hhead : (!s || (List.range' a (a + 1 - a)).any fun j => !ts j) =
        !(s && ts a) := by
      rw [show a + 1 - a = 1 by omega]
      show (!s || (List.any [a] fun j => !ts j)) = _
      simp [Bool.not_and]
    have htail : (List.range' (a + 1) m).filter
        (fun k => !s || (List.range' a (k + 1 - a)).any fun j => !ts j) =
        (List.range' (a + 1) m).filter
          (fun k => !(s && ts a) ||
            (List.range' (a + 1) (k + 1 - (a + 1))).any fun j => !ts j) := by
      refine List.filter_congr fun k hk => ?_
      have hak : a + 1 ≤ k := (List.mem_range'_1.1 hk).1
      have hsz : k + 1 - a = (k + 1 - (a + 1)) + 1 := by omega
      rw [hsz]
      show (!s || (List.any (a :: List.range' (a + 1) (k + 1 - (a + 1)))
        fun j => !ts j)) = _
      simp [Bool.not_and, Bool.or_assoc]
    rw [show List.range' a (m + 1) = a :: List.range' (a + 1) m from rfl,
      List.filter_cons, hhead, htail]
    simp only [latePages, latePages_range' ts m (a + 1) (s && ts a)]
    by_cases hsa : (s && ts a) = true
    · rw [hsa]
      simp
    · have hsa' : (s && ts a) = false := by
        revert hsa
        cases (s && ts a) <;> simp
      rw [hsa']
      simp

/-- `mapGo` succeeds when every step does, preserving a row property. -/
theorem mapGo_ok {α β : Type} (f : α → GoRes β) (Q : β → Prop) :
    ∀ l : List α, (∀ a ∈ l, ∃ b, f a = .ok b ∧ Q b) →
      ∃ bs, mapGo f l = .ok bs ∧ bs.length = l.length ∧ ∀ b ∈ bs, Q b
  | [], _ => ⟨[], rfl, rfl, by simp⟩
  | a :: as, h => by
    obtain ⟨b, hb, hQ⟩ := h a (List.mem_cons_self _ _)
    obtain ⟨bs, hbs, hlen, hall⟩ := mapGo_ok f Q as
      (fun a' ha' => h a' (List.mem_cons_of_mem _ ha'))
    refine ⟨b :: bs, ?_, by simp [hlen], ?_⟩
    · simp only [mapGo, hb, hbs]
    · intro b' hb'
      rcases List.mem_cons.1 hb' with rfl | hb'
      · exact hQ
      · exact hall b' hb'

/-- `copy` preserves the destination length. -/
theorem goCopy_length (dst src : List Nat) :
    (goCopy dst src).length = dst.length := by
  unfold goCopy
  rw [List.length_append, List.length_take, List.length_drop]
  omega

/-- Rows at equal indices of two same-height uniform matrices have equal
lengths. -/
theorem rows_len_eq_of_uniform {m1 m2 : PixelMatrix} {L : Nat}
    (hlen : m1.length = m2.length) (hu1 : uniformRows m1 L)
    (hu2 : uniformRows m2 L) (j : Nat) :
    (row m1 j).length = (row m2 j).length := by
  by_cases hj : j < m1.length
  · rw [row_length_of_uniform hu1 hj, row_length_of_uniform hu2 (hlen ▸ hj)]
  · rw [show row m1 j = [] from List.getD_eq_default _ _ (by omega),
      show row m2 j = [] from List.getD_eq_default _ _ (by omega)]

/-- An `AnnOK` output of a uniform matrix is uniform. -/
theorem uniformRows_of_AnnOK {mat nm : PixelMatrix} {L : Nat}
    (hA : AnnOK mat nm) (hu : uniformRows mat L) : uniformRows nm L := by
  intro r hr
  obtain ⟨i, hi, rfl⟩ := List.mem_iff_getElem.1 hr
  have : nm[i] = row nm i := (List.getD_eq_getElem nm [] hi).symm
  rw [this, hA.2.1 i, row_length_of_uniform hu (hA.1 ▸ hi)]

/-- `joinImages` on compatible inputs: rows of `img1`, the gutter and the
(truncated) rows of `img2`, of total width `L1 + pad + L2`. -/
theorem joinImages_ok (img1 img2 : PixelMatrix) (L1 L2 pad : Nat)
    (h1 : img1 ≠ []) (hu1 : uniformRows img1 L1) (hu2 : uniformRows img2 L2)
    (hL2 : 1 ≤ L2) (hlen : img1.length ≤ img2.length) :
    ∃ out, joinImages img1 img2 pad = .ok out ∧
      out.length = img1.length ∧ out ≠ [] ∧
      uniformRows out (L1 + pad + L2) := by
  obtain ⟨r1, t1, rfl⟩ : ∃ a l, img1 = a :: l := by
    cases img1 with
    | nil => exact absurd rfl h1
    | cons a l => exact ⟨a, l, rfl⟩
  obtain ⟨r2, t2, rfl⟩ : ∃ a l, img2 = a :: l := by
    cases img2 with
    | nil => exact absurd hlen (by simp)
    | cons a l => exact ⟨a, l, rfl⟩
  simp only [joinImages, List.head?]
  have hr1 : r1.length = L1 := hu1 _ (List.mem_cons_self _ _)
  have hr2 : r2.length = L2 := hu2 _ (List.mem_cons_self _ _)
  rw [hr1, hr2]
  have hstep : ∀ i ∈ List.range (r1 :: t1).length,
      ∃ b, (fun i =>
        match (r1 :: t1)[i]? with
        | none => GoRes.panic "index out of range"
        | some row1 =>
          let base := goCopy (List.replicate (L1 + pad + L2) 0) row1
          let k := row1.length + pad + 1
          if L1 + pad + L2 < k then GoRes.panic "slice bounds out of range"
          else
            match (r2 :: t2)[i]? with
            | none => GoRes.panic "index out of range"
            | some row2 =>
              GoRes.ok (base.take k ++ goCopy (base.drop k) row2)) i = .ok b ∧
        b.length = L1 + pad + L2 := by
    intro i hi
    have hi' : i < (r1 :: t1).length := List.mem_range.1 hi
    have hrow : (r1 :: t1)[i]? = some (row (r1 :: t1) i) := by
      rw [List.getElem?_eq_getElem hi']
      exact congrArg some (List.getD_eq_getElem _ [] hi').symm
    simp only [hrow]
    rw [row_length_of_uniform hu1 hi']
    rw [if_neg (by omega)]
    have hi2 : i < (r2 :: t2).length := by omega
    have hrow2 : (r2 :: t2)[i]? = some (row (r2 :: t2) i) := by
      rw [List.getElem?_eq_getElem hi2]
      exact congrArg some (List.getD_eq_getElem _ [] hi2).symm
    simp only [hrow2]
    refine ⟨_, rfl, ?_⟩
    simp only [List.length_append, List.length_take, goCopy_length,
      List.length_drop, List.length_replicate]
    omega
  obtain ⟨bs, hbs, hblen, hall⟩ := mapGo_ok _
    (fun b : List Nat => b.length = L1 + pad + L2)
    (List.range (r1 :: t1).length) hstep
  refine ⟨bs, hbs, by rw [hblen, List.length_range], ?_, fun r hr => hall r hr⟩
  intro hnil
  rw [hnil] at hblen
  simp at hblen

/-- `rgbToPNG` succeeds on a nonempty uniform matrix. -/
theorem rgbToPNG_ok (m : PixelMatrix) (W : Nat) (hne : m ≠ [])
    (hu : uniformRows m W) : ∃ png, rgbToPNG m = .ok png := by
  obtain ⟨r0, t, rfl⟩ : ∃ a l, m = a :: l := by
    cases m with
    | nil => exact absurd rfl hne
    | cons a l => exact ⟨a, l, rfl⟩
  simp only [rgbToPNG, List.head?]
  have hr0 : r0.length = W := hu _ (List.mem_cons_self _ _)
  rw [hr0]
  have hstep : ∀ y ∈ List.range (r0 :: t).length,
      ∃ b, (fun y => mapGo (fun x =>
          (mget (r0 :: t) y (x * 3)).bind fun r =>
          (mget (r0 :: t) y (x * 3 + 1)).bind fun g =>
          (mget (r0 :: t) y (x * 3 + 2)).bind fun b =>
          GoRes.ok (r, g, b, 255)) (List.range (W / 3))) y = .ok b ∧ True := by
    intro y hy
    have hy' : y < (r0 :: t).length := List.mem_range.1 hy
    have hinner : ∀ x ∈ List.range (W / 3),
        ∃ b, ((mget (r0 :: t) y (x * 3)).bind fun r =>
          (mget (r0 :: t) y (x * 3 + 1)).bind fun g =>
          (mget (r0 :: t) y (x * 3 + 2)).bind fun b =>
          GoRes.ok (r, g, b, 255)) = .ok b ∧ True := by
      intro x hx
      have hx' : x < W / 3 := List.mem_range.1 hx
      have hdm : W / 3 * 3 ≤ W := Nat.div_mul_le_self W 3
      have hlt : x * 3 + 2 < (row (r0 :: t) y).length := by
        rw [row_length_of_uniform hu hy']
        omega
      rw [mget_ok _ y (x * 3) hy' (by omega)]
      simp only [GoRes.bind]
      rw [mget_ok _ y (x * 3 + 1) hy' (by omega)]
      simp only [GoRes.bind]
      rw [mget_ok _ y (x * 3 + 2) hy' (by omega)]
      simp only [GoRes.bind]
      exact ⟨_, rfl, trivial⟩
    obtain ⟨rowpx, hrow, -, -⟩ := mapGo_ok _ (fun _ => True)
      (List.range (W / 3)) hinner
    exact ⟨rowpx, hrow, trivial⟩
  obtain ⟨bs, hbs, -, -⟩ := mapGo_ok _ (fun _ => True)
    (List.range (r0 :: t).length) hstep
  exact ⟨bs, hbs⟩

/-- The empty mask leaves `diffImage` a no-op. -/
theorem diffImage_nil (mat : PixelMatrix) (radius : Nat) :
    diffImage mat [] radius = .ok mat := rfl


/-- Per-page well-formedness for a run that annotates: both pages render
and parse, and the two matrices are nonempty with equal dimensions. -/
def pagePipelineOk (env : Env) (f1 f2 : String) (res : Nat)
    (mats1 mats2 : Nat → PixelMatrix) (p : Nat) : Prop :=
  pageOk env f1 res p (mats1 p) ∧ pageOk env f2 res p (mats2 p) ∧
  mats1 p ≠ [] ∧ (mats1 p).length = (mats2 p).length ∧
  ∃ L, 1 ≤ L ∧ uniformRows (mats1 p) L ∧ uniformRows (mats2 p) L

/-- Full characterization of the page loop when image or document output
is requested: it visits every page, renders each twice, and writes the
output file for exactly the pages collected by `latePages` — every page
from the first hash-differing page onward, because the write branch tests
the running `same` flag, not the per-page result. -/
theorem comparePages_all (env : Env) (f1 f2 : String) (images pdfb : Bool)
    (res ratio : Nat) (mats1 mats2 : Nat → PixelMatrix)
    (hreq : (images || pdfb) = true) :
    ∀ (is : List Nat) (s : Bool) (tr : List (String × Nat)) (wr : List String)
      (pngs : List (Nat × String)),
      (∀ i ∈ is, pagePipelineOk env f1 f2 res mats1 mats2 (i + 1)) →
      comparePages env f1 f2 images pdfb res ratio is s tr wr pngs =
        ⟨.ok (s && is.all fun i => hash (mats1 (i + 1)) == hash (mats2 (i + 1))),
         tr ++ is.flatMap (fun i => [(f1, i + 1), (f2, i + 1)]),
         wr ++ (latePages (fun p => hash (mats1 p) == hash (mats2 p))
           (is.map (· + 1)) s).map (fname f1),
         pngs ++ (if pdfb then
           (latePages (fun p => hash (mats1 p) == hash (mats2 p))
             (is.map (· + 1)) s).map (fun p => (p, fname f1 p)) else [])⟩
  | [], s, tr, wr, pngs, _ => by
    cases pdfb <;> simp [comparePages, latePages]
  | i :: rest, s, tr, wr, pngs, h => by
    obtain ⟨⟨ppm1, hren1, hmat1⟩, ⟨ppm2, hren2, hmat2⟩, hne1, hlen12, L, hL1,
      hu1, hu2⟩ := h i (List.mem_cons_self _ _)
    have htl : ∀ i' ∈ rest, pagePipelineOk env f1 f2 res mats1 mats2 (i' + 1) :=
      fun i' hi' => h i' (List.mem_cons_of_mem _ hi')
    have hne2 : mats2 (i + 1) ≠ [] := by
      intro hnil
      rw [hnil] at hlen12
      simp at hlen12
      exact hne1 hlen12
    simp only [comparePages, hren1, hren2, hmat1, hmat2, hreq]
    by_cases hts : hash (mats1 (i + 1)) = hash (mats2 (i + 1))
    · have hts' : (hash (mats1 (i + 1)) == hash (mats2 (i + 1))) = true :=
        beq_iff_eq.mpr hts
      simp only [equalImgMatrix_eq hts true]
      cases s with
      | true =>
        simp only [Bool.and_true, not_true_eq_false, false_and, if_false,
          ite_false]
        rw [comparePages_all env f1 f2 images pdfb res ratio mats1 mats2 hreq
          rest true (tr ++ [(f1, i + 1)] ++ [(f2, i + 1)]) wr pngs htl]
        simp [latePages, hts', List.append_assoc]
      | false =>
        simp only [Bool.and_true, not_false_eq_true, true_and, if_true,
          Option.getD_none, diffImage_nil]
        rw [if_pos (by simp)]
        obtain ⟨joined, hj, hjlen, hjne, hju⟩ :=
          joinImages_ok (mats1 (i + 1)) (mats2 (i + 1)) L L 5 hne1 hu1 hu2
            hL1 (le_of_eq hlen12)
        simp only [hj]
        obtain ⟨png, hpng⟩ := rgbToPNG_ok joined (L + 5 + L) hjne hju
        simp only [hpng]
        rw [comparePages_all env f1 f2 images pdfb res ratio mats1 mats2 hreq
          rest false (tr ++ [(f1, i + 1)] ++ [(f2, i + 1)])
          (wr ++ [f1 ++ "-" ++ toString (i + 1) ++ "-diff.png"])
          (if pdfb then pngs ++
            [(i + 1, f1 ++ "-" ++ toString (i + 1) ++ "-diff.png")]
           else pngs) htl]
        cases pdfb <;>
          simp [latePages, hts', fname, List.append_assoc]
    · have hts' : (hash (mats1 (i + 1)) == hash (mats2 (i + 1))) = false := by
        simpa using hts
      have hrows := rows_len_eq_of_uniform hlen12 hu1 hu2
      simp only [equalImgMatrix_neq_diff hts hne1 hlen12 hrows,
        Bool.and_false, not_false_eq_true, true_and, Option.getD_some]
      rw [if_pos (by simp)]
      obtain ⟨out1, hdi1, hA1⟩ := diffImage_ok (mats1 (i + 1))
        (List.zipWith diffRow (mats1 (i + 1)) (mats2 (i + 1)))
        (res / ratio) L hne1 hu1
      obtain ⟨out2, hdi2, hA2⟩ := diffImage_ok (mats2 (i + 1))
        (List.zipWith diffRow (mats1 (i + 1)) (mats2 (i + 1)))
        (res / ratio) L hne2 hu2
      simp only [hdi1, hdi2]
      have hone : out1 ≠ [] := by
        intro hnil
        have := hA1.1
        rw [hnil] at this
        exact hne1 (List.length_eq_zero.1 this.symm)
      obtain ⟨joined, hj, hjlen, hjne, hju⟩ :=
        joinImages_ok out1 out2 L L 5 hone (uniformRows_of_AnnOK hA1 hu1)
          (uniformRows_of_AnnOK hA2 hu2) hL1
          (by rw [hA1.1, hA2.1, hlen12])
      simp only [hj]
      obtain ⟨png, hpng⟩ := rgbToPNG_ok joined (L + 5 + L) hjne hju
      simp only [hpng]
      rw [comparePages_all env f1 f2 images pdfb res ratio mats1 mats2 hreq
        rest false (tr ++ [(f1, i + 1)] ++ [(f2, i + 1)])
        (wr ++ [f1 ++ "-" ++ toString (i + 1) ++ "-diff.png"])
        (if pdfb then pngs ++
          [(i + 1, f1 ++ "-" ++ toString (i + 1) ++ "-diff.png")]
         else pngs) htl]
      cases pdfb <;> cases s <;>
        simp [latePages, hts', fname, List.append_assoc]


/-- `List.range n` shifted to pages `1..n`. -/
theorem map_succ_range (n : Nat) :
    (List.range n).map (· + 1) = List.range' 1 n := by
  rw [List.range_eq_range']
  rw [show ((List.range' 0 n).map fun x => x + 1) =
    (List.range' 0 n).map fun x => 1 + x from
    List.map_congr_left fun x _ => Nat.add_comm x 1]
  rw [List.map_add_range']

/-- C1 (amended): when image or document output is requested and every
page renders and parses cleanly, the orchestrator writes
`<file1>-<k>-diff.png` (and, with document output, records the
`PageFile`) for exactly the pages `k` such that SOME page `j ≤ k`
hash-differs — i.e. for every page from the first differing page onward,
including pages whose two renderings are identical — because the output
branch tests the running aggregate `same` flag instead of the per-page
result. -/
theorem C1_amended (env : Env) (f1 f2 : String) (images pdfb : Bool)
    (res ratio n : Nat) (mats1 mats2 : Nat → PixelMatrix)
    (hreq : (images || pdfb) = true) (hne : f1 ≠ f2)
    (hc1 : env.pageCount f1 = .ok n) (hc2 : env.pageCount f2 = .ok n)
    (hp : ∀ p, 1 ≤ p → p ≤ n → pagePipelineOk env f1 f2 res mats1 mats2 p) :
    (EqualPDFs env f1 f2 images pdfb res ratio).written =
      ((List.range' 1 n).filter (fun k =>
        (List.range' 1 k).any fun j =>
          !(hash (mats1 j) == hash (mats2 j)))).map (fname f1) ∧
    (EqualPDFs env f1 f2 images pdfb res ratio).pngFiles =
      (if pdfb then ((List.range' 1 n).filter (fun k =>
        (List.range' 1 k).any fun j =>
          !(hash (mats1 j) == hash (mats2 j)))).map (fun p => (p, fname f1 p))
       else []) := by
  have hrw := comparePages_all env f1 f2 images pdfb res ratio mats1 mats2
    hreq (List.range n) true [] [] []
    (fun i hi => hp (i + 1) (by omega)
      (by have := List.mem_range.1 hi; omega))
  have hlate : latePages (fun p => hash (mats1 p) == hash (mats2 p))
      ((List.range n).map (· + 1)) true =
      (List.range' 1 n).filter (fun k =>
        (List.range' 1 k).any fun j =>
          !(hash (mats1 j) == hash (mats2 j))) := by
    rw [map_succ_range, latePages_range']
    refine List.filter_congr fun k _ => ?_
    rw [Nat.add_sub_cancel]
    simp
  simp only [EqualPDFs, hc1, hc2]
  rw [if_neg hne, if_neg (by simp)]
  simp only [hrw, hlate]
  constructor
  · split <;> rfl
  · split <;> rfl

set_option maxRecDepth 4000 in
/-- C1 counterexample: in `envT`, page 2 differs and page 3 is
pixel-identical between the two documents, yet with image and document
output requested the run writes `a-3-diff.png` and records a `PageFile`
for page 3 as well — output files are not created only for differing
pages. -/
theorem C1_counterexample :
    EqualPDFs envT "a" "b" true true 2 30 =
      ⟨.ok false,
       [("a", 1), ("b", 1), ("a", 2), ("b", 2), ("a", 3), ("b", 3)],
       ["a-2-diff.png", "a-3-diff.png"],
       [(2, "a-2-diff.png"), (3, "a-3-diff.png")], true⟩ ∧
    envT.render "a" 3 2 = envT.render "b" 3 2 := by decide

/-- Witness for C1 (amended) in `envT`. -/
theorem C1_amended_witness :
    (EqualPDFs envT "a" "b" true true 2 30).written =
      ((List.range' 1 3).filter (fun k =>
        (List.range' 1 k).any fun j =>
          !(hash (matsT1 j) == hash (matsT2 j)))).map (fname "a") ∧
    (EqualPDFs envT "a" "b" true true 2 30).pngFiles =
      (if true then ((List.range' 1 3).filter (fun k =>
        (List.range' 1 k).any fun j =>
          !(hash (matsT1 j) == hash (matsT2 j)))).map
            (fun p => (p, fname "a" p))
       else []) :=
  C1_amended envT "a" "b" true true 2 30 3 matsT1 matsT2 rfl (by decide)
    rfl rfl
    (fun p h1 h2 => by
      interval_cases p
      · exact ⟨⟨pgT 1, by decide, by decide⟩, ⟨pgT 1, by decide, by decide⟩,
          by decide, by decide, 3, by omega,
          by simp [uniformRows, matsT1], by simp [uniformRows, matsT2]⟩
      · exact ⟨⟨pgT 2, by decide, by decide⟩, ⟨pgT 9, by decide, by decide⟩,
          by decide, by decide, 3, by omega,
          by simp [uniformRows, matsT1], by simp [uniformRows, matsT2]⟩
      · exact ⟨⟨pgT 3, by decide, by decide⟩, ⟨pgT 3, by decide, by decide⟩,
          by decide, by decide, 3, by omega,
          by simp [uniformRows, matsT1], by simp [uniformRows, matsT2]⟩)

end Pdfcomp
